import Mathlib

/-!
# Verification of the musicPlatform audio core

A shallow embedding, in Lean 4, of the audio signal-graph core of the
`musicPlatform` repository: the `AudioNode` routing graph and `RoutingMatrix`
(`audio_routing.py`), the `AudioBlock` graph, `AudioSystem` registry and
realtime callback (`audio_system.py`), and the `AudioBus` mixer
(`mixer.py`).

Modelling conventions:
* Audio samples are rationals (`ℚ`); numpy float arrays become `List ℚ`.
* Python exceptions on the render path are modelled with `Except String`;
  an operation that raises returns `.error`.
* Python objects live in a heap `Store := ℕ → RNode`; object references
  become heap indices, so aliasing behaves as in Python.
* Python `int` block sizes are `ℤ` (so `np.zeros(n)` with `n < 0`, which
  raises `ValueError`, is representable).
* External collaborators (instrument components, bus effect objects) are
  abstracted as pull functions, following the documented collaborator
  interface `generateAudio(frameCount) -> block`.
-/

namespace MusicPlatform

/-- An audio block: a finite sequence of samples. -/
abbrev Block := List ℚ

/-- `np.zeros(n)` for a Python `int` `n`: raises `ValueError` when `n` is
negative, otherwise returns `n` zero samples. -/
def zerosE (n : ℤ) : Except String Block :=
  if n < 0 then .error "ValueError: negative dimensions are not allowed"
  else .ok (List.replicate n.toNat 0)

/-- Numpy in-place addition `a += b` for 1-d arrays: succeeds elementwise when
the lengths agree, broadcasts `b` when it has a single element, and raises a
broadcast `ValueError` otherwise (in-place addition cannot grow `a`). -/
def npAddInPlace (a b : Block) : Except String Block :=
  if b.length = a.length then .ok (List.zipWith (· + ·) a b)
  else if b.length = 1 then .ok (a.map (· + b.headD 0))
  else .error "ValueError: could not broadcast"

/-- Python `int()` applied to a float: truncation toward zero. -/
def pyInt (q : ℚ) : ℤ := q.num.tdiv q.den

/-- Python `%` on integers with a positive modulus (the only case arising in
the delay/reverb cursor arithmetic): the nonnegative representative, i.e.
`Int.emod`. -/
def pyMod (a b : ℤ) : ℤ := a % b

theorem zerosE_nonneg (n : ℤ) (h : 0 ≤ n) :
    zerosE n = .ok (List.replicate n.toNat 0) := by
  simp [zerosE, not_lt.mpr h]

theorem zerosE_neg (n : ℤ) (h : n < 0) : ∃ e, zerosE n = .error e :=
  ⟨"ValueError: negative dimensions are not allowed", by unfold zerosE; rw [if_pos h]⟩

/-! ## Injectivity of `Nat.repr`

The name-deduplication loop of `RoutingMatrix.add_node` /
`AudioSystem.add_block` (`while f"{name}_{i}" in nodes: i += 1`) terminates
because distinct indices yield distinct decimal strings.  Core's `Nat.repr`
is fuel-based, so we relate it to a clean recursion and prove injectivity. -/

/-- Decimal digit characters of `n`, most significant first (fuel-free
counterpart of core's `Nat.toDigitsCore`). -/
def decChars (n : ℕ) : List Char :=
  if h : n < 10 then [Nat.digitChar n]
  else decChars (n / 10) ++ [Nat.digitChar (n % 10)]
  decreasing_by exact Nat.div_lt_self (by omega) (by omega)

theorem decChars_lt {n : ℕ} (h : n < 10) : decChars n = [Nat.digitChar n] := by
  rw [decChars]; exact dif_pos h

theorem decChars_ge {n : ℕ} (h : ¬ n < 10) :
    decChars n = decChars (n / 10) ++ [Nat.digitChar (n % 10)] := by
  rw [decChars]; exact dif_neg h

theorem decChars_ne_nil (n : ℕ) : decChars n ≠ [] := by
  by_cases h : n < 10
  · rw [decChars_lt h]; simp
  · rw [decChars_ge h]; simp

theorem toDigitsCore_eq (fuel n : ℕ) (ds : List Char) (h : n < fuel) :
    Nat.toDigitsCore 10 fuel n ds = decChars n ++ ds := by
  induction fuel generalizing n ds with
  | zero => omega
  | succ f ih =>
    by_cases h10 : n / 10 = 0
    · have hlt : n < 10 := by omega
      simp only [Nat.toDigitsCore]
      rw [if_pos h10, decChars_lt hlt, Nat.mod_eq_of_lt hlt]
      simp
    · have hge : ¬ n < 10 := fun hc => h10 (Nat.div_eq_of_lt hc)
      simp only [Nat.toDigitsCore]
      rw [if_neg h10, ih (n / 10) _ (by omega), decChars_ge hge]
      simp

theorem toDigits_eq_decChars (n : ℕ) : Nat.toDigits 10 n = decChars n := by
  rw [Nat.toDigits, toDigitsCore_eq (n + 1) n [] (Nat.lt_succ_self n)]
  simp

theorem digitChar_inj : ∀ a : ℕ, a < 10 → ∀ b : ℕ, b < 10 →
    Nat.digitChar a = Nat.digitChar b → a = b := by decide

theorem decChars_inj : ∀ {a b : ℕ}, decChars a = decChars b → a = b := by
  intro a
  induction a using Nat.strong_induction_on with
  | _ a ih =>
    intro b h
    by_cases ha : a < 10 <;> by_cases hb : b < 10
    · rw [decChars_lt ha, decChars_lt hb] at h
      exact digitChar_inj a ha b hb (by simpa using h)
    · rw [decChars_lt ha, decChars_ge hb] at h
      have hlen := congrArg List.length h
      simp at hlen
      exact (decChars_ne_nil (b / 10) hlen).elim
    · rw [decChars_ge ha, decChars_lt hb] at h
      have hlen := congrArg List.length h
      simp at hlen
      exact (decChars_ne_nil (a / 10) hlen).elim
    · rw [decChars_ge ha, decChars_ge hb] at h
      obtain ⟨ht, hd⟩ := List.append_inj' h (by simp)
      have hmod : a % 10 = b % 10 :=
        digitChar_inj _ (Nat.mod_lt _ (by omega)) _ (Nat.mod_lt _ (by omega))
          (by simpa using hd)
      have hdiv : a / 10 = b / 10 :=
        ih (a / 10) (Nat.div_lt_self (by omega) (by omega)) ht
      omega

theorem natRepr_inj : Function.Injective Nat.repr := by
  intro a b h
  apply decChars_inj
  have := congrArg String.data h
  simpa [Nat.repr, toDigits_eq_decChars, List.asString] using this

/-- The suffixed name `f"{base}_{i}"` used by the deduplication loops. -/
def sfx (base : String) (i : ℕ) : String := base ++ "_" ++ Nat.repr i

theorem sfx_inj (base : String) : Function.Injective (sfx base) := by
  intro i j h
  apply natRepr_inj
  have := congrArg String.data h
  simp only [sfx, String.data_append] at this
  have := List.append_cancel_left this
  exact String.ext this

/-! ## `audio_routing.py`: the `AudioNode` graph

`AudioNode` and its subclasses (`ComponentNode`, `MixerNode`, `EffectNode`/
`DelayNode`).  Subclass-specific state and behaviour live in `NodeKind`;
`ComponentNode`'s wrapped instrument is abstracted as a pull function
(the component collaborator's `get_audio(buffer_size)` interface). -/

/-- Persistent state of a `DelayNode` (its `parameters` dict plus the delay
line and cursor). -/
structure DelayState where
  delayTime : ℚ
  feedback : ℚ
  mix : ℚ
  delayBuffer : Block
  bufferPos : ℕ
  sampleRate : ℚ
  deriving Repr

/-- Subclass tag and subclass-owned state of an `AudioNode`. -/
inductive NodeKind where
  /-- plain `AudioNode` -/
  | base
  /-- `ComponentNode`: wraps an external instrument, abstracted as its
  `get_audio` pull function -/
  | component (getAudio : ℤ → Block)
  /-- `MixerNode`: per-input gains and mutes -/
  | mixer (inputGains : List ℚ) (inputMutes : List Bool)
  /-- `DelayNode` -/
  | delay (st : DelayState)

/-- An `AudioNode` object: the fields assigned in `AudioNode.__init__`. -/
structure RNode where
  name : String
  numInputs : ℕ
  inputNodes : List (Option ℕ)
  outputNodes : List ℕ
  enabled : Bool
  muted : Bool
  gain : ℚ
  buffer : Block
  kind : NodeKind

/-- The Python heap for `AudioNode` objects: ids play the role of object
references. -/
abbrev Store := ℕ → RNode

/-- Heap update at one id. -/
def setN (g : Store) (i : ℕ) (nd : RNode) : Store :=
  fun j => if j = i then nd else g j

theorem setN_self (g : Store) (i : ℕ) (nd : RNode) : setN g i nd i = nd := by
  simp [setN]

theorem setN_other (g : Store) (i j : ℕ) (nd : RNode) (h : j ≠ i) :
    setN g i nd j = g j := by
  simp [setN, h]

/-- Two nodes agreeing on connection state and all scalar fields are
equal. -/
theorem RNode.eq_of_fields {n₁ n₂ : RNode}
    (h1 : n₁.name = n₂.name) (h2 : n₁.numInputs = n₂.numInputs)
    (h3 : n₁.inputNodes = n₂.inputNodes) (h4 : n₁.outputNodes = n₂.outputNodes)
    (h5 : n₁.enabled = n₂.enabled) (h6 : n₁.muted = n₂.muted)
    (h7 : n₁.gain = n₂.gain) (h8 : n₁.buffer = n₂.buffer)
    (h9 : n₁.kind = n₂.kind) : n₁ = n₂ := by
  cases n₁
  cases n₂
  simp_all

/-- `AudioNode.__init__(name, num_inputs, num_outputs)` (num_outputs is
stored but never used by the behaviour we model). -/
def mkAudioNode (name : String) (numInputs : ℕ) : RNode :=
  { name := name
    numInputs := numInputs
    inputNodes := List.replicate numInputs none
    outputNodes := []
    enabled := true
    muted := false
    gain := 1
    buffer := List.replicate 1024 0
    kind := .base }

/-- `ComponentNode.__init__`: a source node (`num_inputs = 0`) wrapping a
component. -/
def mkComponentNode (name : String) (getAudio : ℤ → Block) : RNode :=
  { mkAudioNode name 0 with kind := .component getAudio }

/-- `MixerNode.__init__`. -/
def mkMixerNode (name : String) (numInputs : ℕ) : RNode :=
  { mkAudioNode name numInputs with
      kind := .mixer (List.replicate numInputs 1) (List.replicate numInputs false) }

/-- `DelayNode.__init__`: parameters `{delay_time: 0.5, feedback: 0.5,
mix: 0.5}`, empty delay line, cursor 0, sample rate 44100. -/
def mkDelayNode (name : String) : RNode :=
  { mkAudioNode name 1 with
      kind := .delay { delayTime := 1/2, feedback := 1/2, mix := 1/2
                       delayBuffer := [], bufferPos := 0, sampleRate := 44100 } }

/-- `EffectNode.set_parameter`: assigns only if the key is already present in
the parameters dict (for a `DelayNode`: `delay_time`, `feedback`, `mix`). -/
def setParameter (nd : RNode) (param : String) (value : ℚ) : RNode :=
  match nd.kind with
  | .delay st =>
      if param = "delay_time" then { nd with kind := .delay { st with delayTime := value } }
      else if param = "feedback" then { nd with kind := .delay { st with feedback := value } }
      else if param = "mix" then { nd with kind := .delay { st with mix := value } }
      else nd
  | _ => nd

/-- One iteration of the per-sample loop of `DelayNode.process_audio`:
read the delayed sample, mix, write back with feedback, advance the cursor.
Raises `ZeroDivisionError` when the delay line is empty (`% 0`) and
`IndexError` when the write cursor is out of range. -/
def delayStep (ds : ℤ) (feedback mix : ℚ) (buf : Block) (pos : ℕ) (x : ℚ) :
    Except String (Block × ℕ × ℚ) :=
  if h0 : buf.length = 0 then .error "ZeroDivisionError: integer modulo by zero"
  else
    let delayIdx := (pyMod ((pos : ℤ) - ds) (buf.length : ℤ)).toNat
    let delaySample := buf.getD delayIdx 0
    let out := x * (1 - mix) + delaySample * mix
    if pos < buf.length then
      .ok (buf.set pos (x + delaySample * feedback), (pos + 1) % buf.length, out)
    else .error "IndexError: index out of bounds"

/-- The per-sample loop of `DelayNode.process_audio` over a whole input
block, accumulating the output buffer. -/
def delayLoop (ds : ℤ) (feedback mix : ℚ) :
    Block → ℕ → Block → Except String (Block × ℕ × Block)
  | buf, pos, [] => .ok (buf, pos, [])
  | buf, pos, x :: xs => do
      let (buf', pos', y) ← delayStep ds feedback mix buf pos x
      let (buf'', pos'', ys) ← delayLoop ds feedback mix buf' pos' xs
      .ok (buf'', pos'', y :: ys)

/-- `DelayNode.process_audio`: recompute the needed delay length, grow the
delay line (zero-padded, preserving content) if too short, then run the
per-sample loop. -/
def delayProcessAudio (st : DelayState) (input : Block) :
    Except String (DelayState × Block) := do
  let ds : ℤ := pyInt (st.delayTime * st.sampleRate)
  let buf :=
    if (st.delayBuffer.length : ℤ) < ds then
      st.delayBuffer ++ List.replicate (ds.toNat - st.delayBuffer.length) 0
    else st.delayBuffer
  let (buf', pos', out) ← delayLoop ds st.feedback st.mix buf st.bufferPos input
  .ok ({ st with delayBuffer := buf', bufferPos := pos' }, out)

/-- `AudioNode.generate_audio` and its `ComponentNode` override: silence for
plain nodes, the component's pull function for component nodes. -/
def generateAudio (nd : RNode) (n : ℤ) : Except String Block :=
  match nd.kind with
  | .component f => .ok (f n)
  | _ => zerosE n

/-- `process_audio` dispatch: identity for plain/component/mixer nodes,
the stateful delay transform for `DelayNode` (updating the node in the
heap). -/
def processAudioAt (g : Store) (id : ℕ) (input : Block) :
    Except String (Store × Block) :=
  match (g id).kind with
  | .delay st =>
      (delayProcessAudio st input).map fun r =>
        (setN g id { g id with kind := .delay r.1 }, r.2)
  | _ => .ok (g, input)

/-- The child-render callback used below: rendering one connected input is
one Python stack frame deeper; with no remaining stack, the call itself
raises `RecursionError`. -/
def outOfStack : Store → ℕ → ℤ → Except String (Store × Block) :=
  fun _ _ _ => .error "RecursionError: maximum recursion depth exceeded"

/-- The mixing loop of `AudioNode.get_input_audio`: process each connected
input node (via the child-render callback `pr`) and add its buffer. -/
def baseFold (pr : Store → ℕ → ℤ → Except String (Store × Block)) :
    Store → List (Option ℕ) → ℤ → Block → Except String (Store × Block)
  | g, [], _, acc => .ok (g, acc)
  | g, none :: rest, n, acc => baseFold pr g rest n acc
  | g, some child :: rest, n, acc => do
      let (g', buf) ← pr g child n
      let acc' ← npAddInPlace acc buf
      baseFold pr g' rest n acc'

/-- The mixing loop of `MixerNode.get_input_audio`: skip muted inputs,
scale each connected input by its per-input gain. -/
def mixerFold (pr : Store → ℕ → ℤ → Except String (Store × Block))
    (gains : List ℚ) (mutes : List Bool) :
    Store → List (Option ℕ) → ℕ → ℤ → Block → Except String (Store × Block)
  | g, [], _, _, acc => .ok (g, acc)
  | g, some child :: rest, i, n, acc =>
      if mutes.getD i false = false then do
        let (g', buf) ← pr g child n
        let acc' ← npAddInPlace acc (buf.map (· * gains.getD i 0))
        mixerFold pr gains mutes g' rest (i + 1) n acc'
      else mixerFold pr gains mutes g rest (i + 1) n acc
  | g, none :: rest, i, n, acc => mixerFold pr gains mutes g rest (i + 1) n acc

/-- `AudioNode.get_input_audio` and its `MixerNode` override, with the
child-render callback `pr`. -/
def getInputAudioP (pr : Store → ℕ → ℤ → Except String (Store × Block))
    (g : Store) (id : ℕ) (n : ℤ) : Except String (Store × Block) :=
  let nd := g id
  match nd.kind with
  | .mixer gains mutes => do
      let z ← zerosE n
      mixerFold pr gains mutes g nd.inputNodes 0 n z
  | _ =>
      if nd.numInputs = 0 then (generateAudio nd n).map fun b => (g, b)
      else do
        let z ← zerosE n
        baseFold pr g nd.inputNodes n z

/-- `AudioNode.process(buffer_size)`: early zero return when disabled or
muted, otherwise mix inputs, run `process_audio`, apply gain, store the
result in `self.buffer` and return it.  `fuel` bounds the Python call-stack
depth: each recursive render of an input runs with one unit less, and a
child render with no fuel left is a `RecursionError`. -/
def process : ℕ → Store → ℕ → ℤ → Except String (Store × Block)
  | fuel, g, id, n =>
    let nd := g id
    if nd.enabled = false ∨ nd.muted = true then
      (zerosE n).map fun z => (g, z)
    else do
      let (g₁, input) ←
        getInputAudioP (match fuel with
                        | 0 => outOfStack
                        | f + 1 => process f) g id n
      let (g₂, out₀) ← processAudioAt g₁ id input
      let out := out₀.map (· * (g₂ id).gain)
      .ok (setN g₂ id { g₂ id with buffer := out }, out)

/-- `AudioNode.get_input_audio` at a given stack depth. -/
def getInputAudio (fuel : ℕ) : Store → ℕ → ℤ → Except String (Store × Block) :=
  getInputAudioP (match fuel with
                  | 0 => outOfStack
                  | f + 1 => process f)

/-- The slot-clearing function used by `disconnect_from`
(`if node == self: input_nodes[i] = None`). -/
def clearSlot (s : ℕ) (o : Option ℕ) : Option ℕ :=
  if o = some s then none else o

/-- `AudioNode.disconnect_from(dest_node)`: if the destination is among this
node's outputs, remove it (first occurrence, as `list.remove`) and clear
*every* slot of the destination that references this node. -/
def disconnectFrom (g : Store) (srcId destId : ℕ) : Store × Bool :=
  if destId ∈ (g srcId).outputNodes then
    let src := g srcId
    let g₁ := setN g srcId { src with outputNodes := src.outputNodes.erase destId }
    let dest := g₁ destId
    let g₂ := setN g₁ destId
      { dest with inputNodes := dest.inputNodes.map (clearSlot srcId) }
    (g₂, true)
  else (g, false)

/-- The "make the connection" step of `AudioNode.connect_output`: set the
slot back-reference, and append to the source's output list unless already
present. -/
def connectLink (g : Store) (srcId destId idx : ℕ) : Store :=
  let g₂ := setN g destId
    { g destId with inputNodes := (g destId).inputNodes.set idx (some srcId) }
  if destId ∈ (g₂ srcId).outputNodes then g₂
  else setN g₂ srcId { g₂ srcId with outputNodes := (g₂ srcId).outputNodes ++ [destId] }

/-- `AudioNode.connect_output(dest_node, input_index)`: if the slot index is
in range, first fully disconnect any existing occupant of the slot, then link
both directions.  Returns whether a connection was made. -/
def connectOutput (g : Store) (srcId destId idx : ℕ) : Store × Bool :=
  if idx < (g destId).numInputs then
    let g₁ :=
      match (g destId).inputNodes.getD idx none with
      | some prevId => (disconnectFrom g prevId destId).1
      | none => g
    (connectLink g₁ srcId destId idx, true)
  else (g, false)

/-- `AudioNode.disconnect_all()`: disconnect from every output, then
disconnect every connected input and null its slot. -/
def disconnectAll (g : Store) (id : ℕ) : Store :=
  let g₁ := (g id).outputNodes.foldl (fun h destId => (disconnectFrom h id destId).1) g
  (List.range (g₁ id).inputNodes.length).foldl
    (fun h i =>
      match (h id).inputNodes.getD i none with
      | some nid =>
          let h₁ := (disconnectFrom h nid id).1
          setN h₁ id { h₁ id with inputNodes := (h₁ id).inputNodes.set i none }
      | none => h)
    g₁

/-! ## `RoutingMatrix` (audio_routing.py)

The node registry (a Python dict `name -> node`, modelled as an ordered
association list of names and heap ids), with name-deduplicating insertion. -/

/-- Membership test of a name in the registry (Python `name in self.nodes`). -/
def hasKey (reg : List (String × ℕ)) (k : String) : Bool :=
  reg.any fun p => p.1 = k

/-- Dict lookup (`self.nodes[name]` guarded by `name in self.nodes`). -/
def qlookup (reg : List (String × ℕ)) (k : String) : Option ℕ :=
  (reg.find? fun p => p.1 = k).map fun p => p.2

/-- The suffix search never runs forever: some `f"{base}_{i+k}"` is not a
key (pigeonhole over the finitely many keys, using injectivity of the
decimal suffix). -/
theorem exists_free_sfx (reg : List (String × ℕ)) (base : String) (i : ℕ) :
    ∃ k, hasKey reg (sfx base (i + k)) = false := by
  by_contra hall
  push_neg at hall
  have hmem : ∀ k : ℕ, sfx base (i + k) ∈ reg.map Prod.fst := by
    intro k
    have h : hasKey reg (sfx base (i + k)) = true := by
      have := hall k
      revert this
      cases hasKey reg (sfx base (i + k)) <;> simp
    simp only [hasKey, List.any_eq_true, decide_eq_true_eq] at h
    obtain ⟨p, hp, hpk⟩ := h
    exact List.mem_map.mpr ⟨p, hp, hpk⟩
  classical
  set keys := reg.map Prod.fst with hkeys
  have hinj : Function.Injective fun k : Fin (keys.length + 1) => sfx base (i + k) := by
    intro a b hab
    have := sfx_inj base hab
    omega
  have hsub : ∀ k : Fin (keys.length + 1),
      (fun k : Fin (keys.length + 1) => sfx base (i + k)) k ∈ keys.toFinset := by
    intro k
    exact List.mem_toFinset.mpr (hmem k)
  have hsub2 : Finset.univ.image (fun k : Fin (keys.length + 1) => sfx base (i + k)) ⊆
      keys.toFinset := Finset.image_subset_iff.mpr fun k _ => hsub k
  have hcard := Finset.card_le_card hsub2
  rw [Finset.card_image_of_injective _ hinj, Finset.card_univ, Fintype.card_fin] at hcard
  have hle := List.toFinset_card_le keys
  omega

/-- The `while f"{name}_{i}" in nodes: i += 1` loop of
`RoutingMatrix.add_node` / `AudioSystem.add_block`. -/
def findSuffix (reg : List (String × ℕ)) (base : String) (i : ℕ) : ℕ :=
  if hasKey reg (sfx base i) then findSuffix reg base (i + 1) else i
termination_by Nat.find (exists_free_sfx reg base i)
decreasing_by
  rename_i hk
  have h0 : (0 : ℕ) < Nat.find (exists_free_sfx reg base i) := by
    rcases Nat.eq_zero_or_pos (Nat.find (exists_free_sfx reg base i)) with h | h
    · have := Nat.find_spec (exists_free_sfx reg base i)
      rw [h] at this
      simp only [Nat.add_zero] at this
      rw [hk] at this
      exact absurd this (by simp)
    · exact h
  have hspec := Nat.find_spec (exists_free_sfx reg base i)
  have : Nat.find (exists_free_sfx reg base (i + 1)) ≤
      Nat.find (exists_free_sfx reg base i) - 1 := by
    apply Nat.find_le
    have : i + 1 + (Nat.find (exists_free_sfx reg base i) - 1) =
        i + Nat.find (exists_free_sfx reg base i) := by omega
    rw [this]
    exact hspec
  omega

/-- The name actually used as registry key by `add_node`/`add_block`: the
base name if free, else the first free suffixed name. -/
def chooseKey (reg : List (String × ℕ)) (base : String) : String :=
  if hasKey reg base then sfx base (findSuffix reg base 1) else base

/-- A `RoutingMatrix`: registry, heap of nodes, allocation counter,
configuration, master node. -/
structure RoutingMatrix where
  registry : List (String × ℕ)
  store : Store
  nextId : ℕ
  sampleRate : ℚ
  bufferSize : ℤ
  masterNode : Option ℕ

/-- `RoutingMatrix.add_node(node)`: deduplicate the node's name, assign the
(possibly suffixed) name to the node, insert it into the registry. -/
def addNode (m : RoutingMatrix) (nd : RNode) : RoutingMatrix × ℕ :=
  let key := chooseKey m.registry nd.name
  let nd' := { nd with name := key }
  ({ m with
      registry := m.registry ++ [(key, m.nextId)]
      store := setN m.store m.nextId nd'
      nextId := m.nextId + 1 }, m.nextId)

/-- `RoutingMatrix.remove_node(node_name)`: unknown names report `False`;
otherwise disconnect everywhere and delete the registry entry. -/
def removeNode (m : RoutingMatrix) (name : String) : RoutingMatrix × Bool :=
  match qlookup m.registry name with
  | some id =>
      ({ m with
          store := disconnectAll m.store id
          registry := m.registry.eraseP fun p => p.1 = name }, true)
  | none => (m, false)

/-- `RoutingMatrix.connect_nodes(source_name, dest_name, input_index)`:
unknown names report `False` without touching anything. -/
def connectNodes (m : RoutingMatrix) (srcName destName : String) (idx : ℕ) :
    RoutingMatrix × Bool :=
  match qlookup m.registry srcName, qlookup m.registry destName with
  | some s, some d =>
      let r := connectOutput m.store s d idx
      ({ m with store := r.1 }, r.2)
  | _, _ => (m, false)

/-- `RoutingMatrix.disconnect_nodes(source_name, dest_name)`. -/
def disconnectNodes (m : RoutingMatrix) (srcName destName : String) :
    RoutingMatrix × Bool :=
  match qlookup m.registry srcName, qlookup m.registry destName with
  | some s, some d =>
      let r := disconnectFrom m.store s d
      ({ m with store := r.1 }, r.2)
  | _, _ => (m, false)

/-! ## `audio_system.py`: `AudioBlock` and the realtime callback

The base `AudioBlock.process` wraps its whole body in `try/except` and
returns silence on any exception.  In the fragment modelled here (plain
blocks), the only exception the body can raise occurs before any state
mutation (the explicit `BufferSizeError` raise), so the handler can safely
resume from the entry heap. -/

/-- An `AudioBlock` object: the fields assigned in `AudioBlock.__init__`. -/
structure ABlock where
  name : String
  inputs : List ℕ
  outputs : List ℕ
  muted : Bool
  solo : Bool
  volume : ℚ
  bypass : Bool
  buffer : Block
  sampleRate : ℚ

/-- The Python heap for `AudioBlock` objects. -/
abbrev BStore := ℕ → ABlock

/-- Heap update at one id. -/
def setB (g : BStore) (i : ℕ) (blk : ABlock) : BStore :=
  fun j => if j = i then blk else g j

/-- `AudioBlock.__init__(name)`. -/
def mkAudioBlock (name : String) : ABlock :=
  { name := name, inputs := [], outputs := [], muted := false, solo := false
    volume := 1, bypass := false, buffer := List.replicate 1024 0
    sampleRate := 44100 }

mutual

/-- The `try:` body of `AudioBlock.process(buffer_size)`: raise on
non-positive sizes, silence when muted, mix inputs (or generate silence),
optionally bypass, apply volume, store the buffer. -/
def blkProcessBody (fuel : ℕ) (g : BStore) (id : ℕ) (n : ℤ) :
    Except String (BStore × Block) :=
  if n ≤ 0 then .error "BufferSizeError: Invalid buffer size"
  else
    let blk := g id
    if blk.muted = true then (zerosE n).map fun z => (g, z)
    else do
      let (g₁, mixed) ←
        if blk.inputs.isEmpty then (zerosE n).map fun z => (g, z)
        else do
          let z ← zerosE n
          blkMixFold fuel g blk.inputs n z
      let processed := if blk.bypass = true then mixed else mixed
      let out := processed.map (· * blk.volume)
      .ok (setB g₁ id { g₁ id with buffer := out }, out)
termination_by (fuel, 1, 0)

/-- `AudioBlock.process(buffer_size)`: the body above wrapped in
`try/except`, returning `np.zeros(buffer_size)` on any exception (in the
modelled fragment the body raises only before mutating any state, so the
handler resumes from the entry heap, as Python does). -/
def blkProcess (fuel : ℕ) (g : BStore) (id : ℕ) (n : ℤ) :
    Except String (BStore × Block) :=
  match blkProcessBody fuel g id n with
  | .ok r => .ok r
  | .error _ => (zerosE n).map fun z => (g, z)
termination_by (fuel, 2, 0)

/-- The input-mixing loop of `AudioBlock.process`. -/
def blkMixFold (fuel : ℕ) (g : BStore) (ids : List ℕ) (n : ℤ) (acc : Block) :
    Except String (BStore × Block) :=
  match ids with
  | [] => .ok (g, acc)
  | child :: rest =>
      match fuel with
      | 0 => .error "RecursionError: maximum recursion depth exceeded"
      | f + 1 => do
          let (g', buf) ← blkProcess f g child n
          let acc' ← npAddInPlace acc buf
          blkMixFold (f + 1) g' rest n acc'
termination_by (fuel, 0, ids.length)

end

/-- The PyAudio stream callback installed by `AudioSystem.start`: render the
master block, zero-pad or truncate to exactly `frame_count` frames, convert
to float32 (value-level identity here) and deliver; with no master block, or
on any exception, deliver silence. -/
def audioCallback (g : BStore) (master : Option ℕ) (frameCount : ℕ)
    (fuel : ℕ) : Block :=
  match master with
  | some id =>
      match blkProcess fuel g id (frameCount : ℤ) with
      | .ok r =>
          if r.2.length < frameCount then
            r.2 ++ List.replicate (frameCount - r.2.length) 0
          else r.2.take frameCount
      | .error _ => List.replicate frameCount 0
  | none => List.replicate frameCount 0

/-- The block registry of `AudioSystem` (dict `name -> block`), with the
heap and allocation counter, as for `RoutingMatrix`. -/
structure AudioSystemState where
  blocks : List (String × ℕ)
  bstore : BStore
  nextId : ℕ
  sampleRate : ℚ
  masterBlock : Option ℕ

/-- `AudioSystem.add_block(block, name=None)`: default the name to the
block's own, deduplicate with the same numeric-suffix loop as
`RoutingMatrix.add_node`, assign name and system sample rate to the block,
insert. -/
def addBlock (sys : AudioSystemState) (blk : ABlock) (nameOpt : Option String) :
    AudioSystemState × String :=
  let base := nameOpt.getD blk.name
  let key := chooseKey sys.blocks base
  let blk' := { blk with name := key, sampleRate := sys.sampleRate }
  ({ sys with
      blocks := sys.blocks ++ [(key, sys.nextId)]
      bstore := setB sys.bstore sys.nextId blk'
      nextId := sys.nextId + 1 }, key)

/-! ## `mixer.py`: `AudioBus`

A bus sums external source tracks and nested input buses, applies its
effect chain and volume.  Source tracks and effects are external
collaborators: a track is its `muted` flag plus its `generate_audio` pull
function, an effect object is its `process` block transform. -/

/-- An external source track feeding a bus. -/
structure STrack where
  muted : Bool
  generateAudio : ℤ → Block

/-- An `AudioBus`: name, volume, mute flag, source tracks, nested input
buses, effect chain, last buffer. -/
inductive ABus where
  | mk (name : String) (volume : ℚ) (muted : Bool) (sourceTracks : List STrack)
      (inputs : List ABus) (effects : List (Block → Block)) (buffer : Block)

/-- The bus's `muted` flag. -/
def ABus.muted : ABus → Bool
  | .mk _ _ m _ _ _ _ => m

/-- The bus's `buffer` field. -/
def ABus.buffer : ABus → Block
  | .mk _ _ _ _ _ _ b => b

/-- `AudioBus.apply_effects`: pipe the block through the effect chain. -/
def applyEffects (effects : List (Block → Block)) (audio : Block) : Block :=
  effects.foldl (fun result e => e result) audio

mutual

/-- `AudioBus.process_audio(num_frames)`: silence when muted; otherwise sum
unmuted source tracks and unmuted input buses, apply effects and volume,
store the result in `self.buffer` and return it. -/
def ABus.processAudio : ABus → ℤ → Except String (ABus × Block)
  | .mk name vol m tracks inputs effects buffer, n =>
      if m = true then (zerosE n).map fun z => (.mk name vol m tracks inputs effects buffer, z)
      else do
        let z ← zerosE n
        let out₁ ← trackFold tracks n z
        let (inputs', out₂) ← busFold inputs n out₁
        let out₃ := applyEffects effects out₂
        let out := out₃.map (· * vol)
        .ok (.mk name vol m tracks inputs' effects out, out)

/-- The source-track summing loop of `AudioBus.process_audio`. -/
def trackFold (tracks : List STrack) (n : ℤ) (acc : Block) :
    Except String Block :=
  match tracks with
  | [] => .ok acc
  | t :: rest =>
      if t.muted = true then trackFold rest n acc
      else do
        let acc' ← npAddInPlace acc (t.generateAudio n)
        trackFold rest n acc'

/-- The nested-bus summing loop of `AudioBus.process_audio` (muted input
buses are skipped, not rendered). -/
def busFold : List ABus → ℤ → Block → Except String (List ABus × Block)
  | [], _, acc => .ok ([], acc)
  | b :: rest, n, acc =>
      if b.muted = true then do
        let (rest', acc') ← busFold rest n acc
        .ok (b :: rest', acc')
      else do
        let (b', out) ← b.processAudio n
        let acc' ← npAddInPlace acc out
        let (rest', acc'') ← busFold rest n acc'
        .ok (b' :: rest', acc'')

end


/-- Simp support: `do`-notation reductions for `Except`. -/
@[simp] theorem exc_ok_bind {α β : Type} (a : α) (f : α → Except String β) :
    (Except.ok a >>= f) = f a := rfl

@[simp] theorem exc_error_bind {α β : Type} (e : String) (f : α → Except String β) :
    ((Except.error e : Except String α) >>= f) = Except.error e := rfl

@[simp] theorem exc_map_ok {α β : Type} (f : α → β) (a : α) :
    Except.map f (Except.ok a : Except String α) = Except.ok (f a) := rfl

@[simp] theorem exc_map_error {α β : Type} (f : α → β) (e : String) :
    Except.map f (Except.error e : Except String α) = Except.error e := rfl

/-! ## Graph-invariant toolkit -/

theorem getD_set_self {α : Type} (l : List α) (i : ℕ) (v dflt : α)
    (h : i < l.length) : (l.set i v).getD i dflt = v := by
  simp [List.getD_eq_getElem?_getD, List.getElem?_set_self h]

theorem getD_set_ne {α : Type} (l : List α) (i j : ℕ) (v dflt : α)
    (h : i ≠ j) : (l.set i v).getD j dflt = l.getD j dflt := by
  simp [List.getD_eq_getElem?_getD, List.getElem?_set_ne h]

theorem getD_map_clear (l : List (Option ℕ)) (s : ℕ) (i : ℕ) :
    (l.map (clearSlot s)).getD i none = clearSlot s (l.getD i none) := by
  simp only [List.getD_eq_getElem?_getD, List.getElem?_map]
  cases h : l[i]? with
  | none => simp [clearSlot]
  | some x => simp

theorem clearSlot_ne (s : ℕ) (o : Option ℕ) : clearSlot s o ≠ some s := by
  unfold clearSlot
  split
  · simp
  · assumption

/-- Pointwise description of a successful `disconnect_from`: the source's
output list loses its first occurrence of the destination, every slot of the
destination referencing the source is cleared, and nothing else changes. -/
theorem disconnectFrom_desc (g : Store) (s d : ℕ)
    (h : d ∈ (g s).outputNodes) :
    (disconnectFrom g s d).2 = true ∧
    ∀ x, (disconnectFrom g s d).1 x =
      { g x with
          outputNodes := if x = s then (g x).outputNodes.erase d else (g x).outputNodes
          inputNodes := if x = d then (g x).inputNodes.map (clearSlot s)
                        else (g x).inputNodes } := by
  unfold disconnectFrom
  rw [if_pos h]
  refine ⟨rfl, fun x => ?_⟩
  by_cases hxd : x = d
  · subst hxd
    by_cases hds : x = s
    · subst hds
      simp [setN]
    · simp [setN, hds]
  · by_cases hxs : x = s
    · subst hxs
      simp [setN, hxd]
    · simp [setN, hxd, hxs]

/-- The destination's slot array after a successful `disconnect_from`. -/
theorem disconnectFrom_inputNodes_dest (g : Store) (s d : ℕ)
    (h : d ∈ (g s).outputNodes) :
    ((disconnectFrom g s d).1 d).inputNodes = (g d).inputNodes.map (clearSlot s) := by
  rw [(disconnectFrom_desc g s d h).2 d]
  simp

/-- C10 (implicit): `disconnect_from` clears the source from *every* input
slot of the destination, and consequently the occupant evicted by
`connect_output` is removed from every slot of the destination it occupied:
afterwards a slot of the destination can reference the old occupant only if
it is the connected slot and the occupant is the new source itself. -/
theorem disconnect_clears_every_slot (g : Store) (s d idx p : ℕ)
    (hout : d ∈ (g s).outputNodes)
    (hidx : idx < (g d).numInputs)
    (hprev : (g d).inputNodes.getD idx none = some p)
    (hpout : d ∈ (g p).outputNodes) :
    (∀ i, ((disconnectFrom g s d).1 d).inputNodes.getD i none ≠ some s) ∧
    (∀ j, ((connectOutput g s d idx).1 d).inputNodes.getD j none = some p →
      j = idx ∧ p = s) := by
  constructor
  · intro i
    rw [(disconnectFrom_desc g s d hout).2 d]
    simp only [ite_true, eq_self_iff_true, if_pos]
    rw [getD_map_clear]
    exact clearSlot_ne s _
  · have hrange : idx < (g d).inputNodes.length := by
      rcases Nat.lt_or_ge idx (g d).inputNodes.length with hlt | hge
      · exact hlt
      · rw [List.getD_eq_getElem?_getD, List.getElem?_eq_none hge] at hprev
        exact Option.noConfusion hprev
    have hdesc := (disconnectFrom_desc g p d hpout).2
    have hInp : ((disconnectFrom g p d).1 d).inputNodes
        = (g d).inputNodes.map (clearSlot p) := by
      rw [hdesc d]
      simp
    have hSlots : ((connectOutput g s d idx).1 d).inputNodes
        = ((g d).inputNodes.map (clearSlot p)).set idx (some s) := by
      rw [connectOutput, if_pos hidx]
      simp only [hprev]
      rw [connectLink]
      split
      · rw [setN_self]
        simp only [hInp]
      · by_cases hsd : s = d
        · subst hsd
          rw [setN_self]
          simp only []
          rw [setN_self]
          simp only [hInp]
        · rw [setN_other _ _ _ _ (fun hc => hsd hc.symm)]
          rw [setN_self]
          simp only [hInp]
    intro j hj
    rw [hSlots] at hj
    by_cases hji : j = idx
    · subst hji
      rw [getD_set_self _ _ _ _ (by simpa using hrange)] at hj
      exact ⟨rfl, by injection hj with hj; omega⟩
    · exfalso
      rw [getD_set_ne _ _ _ _ _ (fun hc => hji hc.symm)] at hj
      rw [getD_map_clear] at hj
      exact clearSlot_ne p _ hj

/-- Node `a` occupies some input slot of node `b`. -/
def HasSlot (g : Store) (b a : ℕ) : Prop :=
  ∃ i, (g b).inputNodes.getD i none = some a

/-- The connection-state invariant of the `AudioNode` graph: output lists
are duplicate-free (sets), slot arrays have the arity fixed at
construction, and slot back-references and output lists are bidirectionally
consistent. -/
def GraphInv (g : Store) : Prop :=
  (∀ a, ((g a).outputNodes).Nodup) ∧
  (∀ a, (g a).inputNodes.length = (g a).numInputs) ∧
  (∀ a b, HasSlot g b a ↔ b ∈ (g a).outputNodes)

theorem clearSlot_eq_some_iff (s a : ℕ) (o : Option ℕ) (ha : a ≠ s) :
    clearSlot s o = some a ↔ o = some a := by
  unfold clearSlot
  split
  · rename_i h
    constructor
    · intro hc
      exact Option.noConfusion hc
    · intro hc
      rw [h] at hc
      injection hc with hc
      exact absurd hc.symm ha
  · exact Iff.rfl

theorem disconnectFrom_preserves_inv (g : Store) (s d : ℕ)
    (hinv : GraphInv g) : GraphInv (disconnectFrom g s d).1 := by
  by_cases h : d ∈ (g s).outputNodes
  · obtain ⟨hnd, hlen, hiff⟩ := hinv
    have hdesc := (disconnectFrom_desc g s d h).2
    have hOut : ∀ a, ((disconnectFrom g s d).1 a).outputNodes =
        if a = s then (g a).outputNodes.erase d else (g a).outputNodes := by
      intro a
      rw [hdesc a]
    have hInp : ∀ b, ((disconnectFrom g s d).1 b).inputNodes =
        if b = d then (g b).inputNodes.map (clearSlot s) else (g b).inputNodes := by
      intro b
      rw [hdesc b]
    have hNum : ∀ a, ((disconnectFrom g s d).1 a).numInputs = (g a).numInputs := by
      intro a
      rw [hdesc a]
    refine ⟨?_, ?_, ?_⟩
    · intro a
      rw [hOut a]
      split
      · exact List.Nodup.erase d (hnd a)
      · exact hnd a
    · intro a
      rw [hInp a, hNum a]
      split
      · rw [List.length_map]
        exact hlen a
      · exact hlen a
    · intro a b
      have hHS : HasSlot (disconnectFrom g s d).1 b a ↔
          ∃ i, (if b = d then (g b).inputNodes.map (clearSlot s)
                else (g b).inputNodes).getD i none = some a := by
        unfold HasSlot
        rw [hInp b]
      rw [hHS, hOut a]
      by_cases hbd : b = d <;> by_cases has : a = s
      · subst hbd
        subst has
        rw [if_pos rfl, if_pos rfl]
        constructor
        · rintro ⟨i, hi⟩
          rw [getD_map_clear] at hi
          exact absurd hi (clearSlot_ne a _)
        · intro hm
          exact absurd hm ((hnd a).not_mem_erase)
      · subst hbd
        rw [if_pos rfl, if_neg has]
        have : (∃ i, ((g b).inputNodes.map (clearSlot s)).getD i none = some a) ↔
            HasSlot g b a := by
          unfold HasSlot
          constructor
          · rintro ⟨i, hi⟩
            rw [getD_map_clear, clearSlot_eq_some_iff s a _ has] at hi
            exact ⟨i, hi⟩
          · rintro ⟨i, hi⟩
            refine ⟨i, ?_⟩
            rw [getD_map_clear, clearSlot_eq_some_iff s a _ has]
            exact hi
        rw [this]
        exact hiff a b
      · subst has
        rw [if_neg hbd, if_pos rfl]
        rw [(hnd a).mem_erase_iff]
        constructor
        · intro hs
          exact ⟨hbd, (hiff a b).1 hs⟩
        · rintro ⟨_, hm⟩
          exact (hiff a b).2 hm
      · rw [if_neg hbd, if_neg has]
        exact hiff a b
  · unfold disconnectFrom
    rw [if_neg h]
    exact hinv

/-- Pointwise description of the linking step of `connect_output`. -/
theorem connectLink_desc (g : Store) (s d idx : ℕ) :
    ∀ x, connectLink g s d idx x =
      { g x with
          inputNodes := if x = d then (g x).inputNodes.set idx (some s)
                        else (g x).inputNodes
          outputNodes := if x = s ∧ d ∉ (g s).outputNodes
                         then (g x).outputNodes ++ [d]
                         else (g x).outputNodes } := by
  intro x
  unfold connectLink
  have houts : (setN g d { g d with
      inputNodes := (g d).inputNodes.set idx (some s) } s).outputNodes
      = (g s).outputNodes := by
    by_cases hsd : s = d <;> simp [setN, hsd]
  rw [houts]
  by_cases hmem : d ∈ (g s).outputNodes
  · rw [if_pos hmem]
    by_cases hxd : x = d
    · subst hxd
      simp [setN, hmem]
    · simp [setN, hxd, hmem]
  · rw [if_neg hmem]
    by_cases hxs : x = s
    · subst hxs
      by_cases hxd : x = d
      · subst hxd
        simp [setN, hmem]
      · simp [setN, hxd, hmem, houts]
    · by_cases hxd : x = d
      · subst hxd
        simp [setN, hxs, hmem]
      · simp [setN, hxs, hxd, hmem]

theorem connectLink_preserves_inv (g : Store) (s d idx : ℕ)
    (hinv : GraphInv g)
    (hrange : idx < (g d).inputNodes.length)
    (hslot : (g d).inputNodes.getD idx none = none) :
    GraphInv (connectLink g s d idx) := by
  obtain ⟨hnd, hlen, hiff⟩ := hinv
  have hdesc := connectLink_desc g s d idx
  have hOut : ∀ a, (connectLink g s d idx a).outputNodes =
      if a = s ∧ d ∉ (g s).outputNodes then (g a).outputNodes ++ [d]
      else (g a).outputNodes := fun a => by rw [hdesc a]
  have hInp : ∀ b, (connectLink g s d idx b).inputNodes =
      if b = d then (g b).inputNodes.set idx (some s)
      else (g b).inputNodes := fun b => by rw [hdesc b]
  have hNum : ∀ a, (connectLink g s d idx a).numInputs = (g a).numInputs :=
    fun a => by rw [hdesc a]
  refine ⟨?_, ?_, ?_⟩
  · intro a
    rw [hOut a]
    split
    · rename_i hc
      rw [List.nodup_append]
      refine ⟨hnd a, by simp, ?_⟩
      intro x hx hx2
      simp at hx2
      subst hx2
      exact hc.2 (hc.1 ▸ hx)
    · exact hnd a
  · intro a
    rw [hInp a, hNum a]
    split
    · rw [List.length_set]
      exact hlen a
    · exact hlen a
  · intro a b
    have hHS : HasSlot (connectLink g s d idx) b a ↔
        ∃ i, (if b = d then (g b).inputNodes.set idx (some s)
              else (g b).inputNodes).getD i none = some a := by
      unfold HasSlot
      rw [hInp b]
    rw [hHS, hOut a]
    by_cases hbd : b = d <;> by_cases has : a = s
    · subst hbd
      subst has
      rw [if_pos rfl]
      have hl : ∃ i, ((g b).inputNodes.set idx (some a)).getD i none = some a :=
        ⟨idx, getD_set_self _ _ _ _ hrange⟩
      split
      · rename_i hc
        simp only [iff_true_intro hl, true_iff]
        simp
      · rename_i hc
        rw [not_and_or, not_not] at hc
        rcases hc with hc | hc
        · exact absurd rfl hc
        · simp only [iff_true_intro hl, true_iff]
          exact hc
    · subst hbd
      rw [if_pos rfl]
      have heq : (∃ i, ((g b).inputNodes.set idx (some s)).getD i none = some a) ↔
          HasSlot g b a := by
        unfold HasSlot
        constructor
        · rintro ⟨i, hi⟩
          by_cases hii : i = idx
          · subst hii
            rw [getD_set_self _ _ _ _ hrange] at hi
            injection hi with hi
            exact absurd hi.symm has
          · rw [getD_set_ne _ _ _ _ _ (fun hc => hii hc.symm)] at hi
            exact ⟨i, hi⟩
        · rintro ⟨i, hi⟩
          by_cases hii : i = idx
          · subst hii
            rw [hslot] at hi
            exact Option.noConfusion hi
          · refine ⟨i, ?_⟩
            rw [getD_set_ne _ _ _ _ _ (fun hc => hii hc.symm)]
            exact hi
      rw [heq]
      have hneg : ¬ (a = s ∧ b ∉ (g s).outputNodes) := fun hc => has hc.1
      rw [if_neg hneg]
      exact hiff a b
    · subst has
      rw [if_neg hbd]
      split
      · rename_i hc
        rw [List.mem_append]
        constructor
        · intro hs
          exact Or.inl ((hiff a b).1 hs)
        · rintro (hm | hm)
          · exact (hiff a b).2 hm
          · simp at hm
            exact absurd hm hbd
      · exact hiff a b
    · rw [if_neg hbd]
      have : ¬ (a = s ∧ d ∉ (g s).outputNodes) := fun hc => has hc.1
      rw [if_neg this]
      exact hiff a b

theorem connectOutput_preserves_inv (g : Store) (s d idx : ℕ)
    (hinv : GraphInv g) : GraphInv (connectOutput g s d idx).1 := by
  unfold connectOutput
  by_cases hidx : idx < (g d).numInputs
  · rw [if_pos hidx]
    simp only []
    cases hprev : (g d).inputNodes.getD idx none with
    | none =>
        apply connectLink_preserves_inv g s d idx hinv
        · rw [hinv.2.1 d]
          exact hidx
        · exact hprev
    | some p =>
        have hpout : d ∈ (g p).outputNodes := (hinv.2.2 p d).1 ⟨idx, hprev⟩
        have hinv' := disconnectFrom_preserves_inv g p d hinv
        apply connectLink_preserves_inv _ s d idx hinv'
        · rw [disconnectFrom_inputNodes_dest g p d hpout, List.length_map,
            hinv.2.1 d]
          exact hidx
        · rw [disconnectFrom_inputNodes_dest g p d hpout, getD_map_clear, hprev]
          simp [clearSlot]
  · rw [if_neg hidx]
    exact hinv

theorem setSlotNone_preserves_inv (g : Store) (x i : ℕ)
    (hinv : GraphInv g) (hslot : (g x).inputNodes.getD i none = none) :
    GraphInv (setN g x { g x with inputNodes := (g x).inputNodes.set i none }) := by
  obtain ⟨hnd, hlen, hiff⟩ := hinv
  have hOut : ∀ a, (setN g x { g x with inputNodes := (g x).inputNodes.set i none } a).outputNodes
      = (g a).outputNodes := by
    intro a
    by_cases hax : a = x <;> simp [setN, hax]
  have hNum : ∀ a, (setN g x { g x with inputNodes := (g x).inputNodes.set i none } a).numInputs
      = (g a).numInputs := by
    intro a
    by_cases hax : a = x <;> simp [setN, hax]
  have hInp : ∀ b, (setN g x { g x with inputNodes := (g x).inputNodes.set i none } b).inputNodes
      = if b = x then (g b).inputNodes.set i none else (g b).inputNodes := by
    intro b
    by_cases hbx : b = x <;> simp [setN, hbx]
  refine ⟨fun a => hOut a ▸ hnd a, ?_, ?_⟩
  · intro a
    rw [hInp a, hNum a]
    split
    · rw [List.length_set]
      exact hlen a
    · exact hlen a
  · intro a b
    have hHS : HasSlot (setN g x { g x with inputNodes := (g x).inputNodes.set i none }) b a ↔
        ∃ j, (if b = x then (g b).inputNodes.set i none
              else (g b).inputNodes).getD j none = some a := by
      unfold HasSlot
      rw [hInp b]
    rw [hHS, hOut a]
    by_cases hbx : b = x
    · subst hbx
      rw [if_pos rfl]
      have heq : (∃ j, ((g b).inputNodes.set i none).getD j none = some a) ↔
          HasSlot g b a := by
        unfold HasSlot
        constructor
        · rintro ⟨j, hj⟩
          by_cases hji : j = i
          · subst hji
            by_cases hr : j < (g b).inputNodes.length
            · rw [getD_set_self _ _ _ _ hr] at hj
              exact Option.noConfusion hj
            · rw [List.set_eq_of_length_le (Nat.le_of_not_lt hr)] at hj
              exact ⟨j, hj⟩
          · rw [getD_set_ne _ _ _ _ _ (fun hc => hji hc.symm)] at hj
            exact ⟨j, hj⟩
        · rintro ⟨j, hj⟩
          by_cases hji : j = i
          · subst hji
            rw [hslot] at hj
            exact Option.noConfusion hj
          · refine ⟨j, ?_⟩
            rw [getD_set_ne _ _ _ _ _ (fun hc => hji hc.symm)]
            exact hj
      rw [heq]
      exact hiff a b
    · rw [if_neg hbx]
      exact hiff a b

theorem disconnectAll_preserves_inv (g : Store) (x : ℕ)
    (hinv : GraphInv g) : GraphInv (disconnectAll g x) := by
  unfold disconnectAll
  have hfold1 : ∀ (outs : List ℕ) (h : Store), GraphInv h →
      GraphInv (outs.foldl (fun h destId => (disconnectFrom h x destId).1) h) := by
    intro outs
    induction outs with
    | nil => intro h hh; exact hh
    | cons o rest ih =>
        intro h hh
        exact ih _ (disconnectFrom_preserves_inv h x o hh)
  have hstep : ∀ (h : Store) (i : ℕ), GraphInv h →
      GraphInv (match (h x).inputNodes.getD i none with
        | some nid =>
            let h₁ := (disconnectFrom h nid x).1
            setN h₁ x { h₁ x with inputNodes := (h₁ x).inputNodes.set i none }
        | none => h) := by
    intro h i hh
    cases hsl : (h x).inputNodes.getD i none with
    | none => exact hh
    | some nid =>
        have hxout : x ∈ (h nid).outputNodes := (hh.2.2 nid x).1 ⟨i, hsl⟩
        have hh' := disconnectFrom_preserves_inv h nid x hh
        apply setSlotNone_preserves_inv _ x i hh'
        rw [disconnectFrom_inputNodes_dest h nid x hxout, getD_map_clear, hsl]
        simp [clearSlot]
  have hfold2 : ∀ (is : List ℕ) (h : Store), GraphInv h →
      GraphInv (is.foldl
        (fun h i =>
          match (h x).inputNodes.getD i none with
          | some nid =>
              let h₁ := (disconnectFrom h nid x).1
              setN h₁ x { h₁ x with inputNodes := (h₁ x).inputNodes.set i none }
          | none => h) h) := by
    intro is
    induction is with
    | nil => intro h hh; exact hh
    | cons j rest ih =>
        intro h hh
        exact ih _ (hstep h j hh)
  exact hfold2 _ _ (hfold1 _ g hinv)

/-- The source's output list after a successful `disconnect_from`. -/
theorem disconnectFrom_outputNodes_src (g : Store) (s d : ℕ)
    (h : d ∈ (g s).outputNodes) :
    ((disconnectFrom g s d).1 s).outputNodes = (g s).outputNodes.erase d := by
  rw [(disconnectFrom_desc g s d h).2 s]
  simp

/-- The destination's slot array after a `connect_output` that evicted the
previous occupant `p`. -/
theorem connectOutput_slots (g : Store) (s d idx p : ℕ)
    (hidx : idx < (g d).numInputs)
    (hprev : (g d).inputNodes.getD idx none = some p)
    (hpout : d ∈ (g p).outputNodes) :
    ((connectOutput g s d idx).1 d).inputNodes
      = ((g d).inputNodes.map (clearSlot p)).set idx (some s) := by
  have hInp := disconnectFrom_inputNodes_dest g p d hpout
  rw [connectOutput, if_pos hidx]
  simp only [hprev]
  rw [connectLink]
  split
  · rw [setN_self]
    simp only [hInp]
  · by_cases hsd : s = d
    · subst hsd
      rw [setN_self]
      simp only []
      rw [setN_self]
      simp only [hInp]
    · rw [setN_other _ _ _ _ (fun hc => hsd hc.symm)]
      rw [setN_self]
      simp only [hInp]

/-- The evicted occupant's output list after a `connect_output` whose new
source is a different node. -/
theorem connectOutput_outputs_evicted (g : Store) (s d idx p : ℕ)
    (hidx : idx < (g d).numInputs)
    (hprev : (g d).inputNodes.getD idx none = some p)
    (hpout : d ∈ (g p).outputNodes)
    (hps : p ≠ s) :
    ((connectOutput g s d idx).1 p).outputNodes
      = (g p).outputNodes.erase d := by
  rw [connectOutput, if_pos hidx]
  simp only [hprev]
  rw [connectLink_desc _ s d idx p]
  have hneg : ¬ (p = s ∧ d ∉ ((disconnectFrom g p d).1 s).outputNodes) :=
    fun hc => hps hc.1
  rw [if_neg hneg]
  simp only []
  exact disconnectFrom_outputNodes_src g p d hpout

theorem erase_append_singleton (l : List ℕ) (d : ℕ) (h : d ∉ l) :
    (l ++ [d]).erase d = l := by
  rw [List.erase_append_right _ h]
  simp

theorem set_map_clear_restore (l : List (Option ℕ)) (idx s : ℕ)
    (hslot : l.getD idx none = none)
    (hnos : ∀ j, l.getD j none ≠ some s) :
    (l.set idx (some s)).map (clearSlot s) = l := by
  apply List.ext_getElem?
  intro i
  rw [List.getElem?_map]
  by_cases hii : i = idx
  · subst hii
    by_cases hr : i < l.length
    · rw [List.getElem?_set_self (by simpa using hr)]
      have : l[i]? = some none := by
        rw [List.getD_eq_getElem?_getD] at hslot
        cases hl : l[i]? with
        | none =>
            rw [List.getElem?_eq_none_iff] at hl
            omega
        | some o =>
            rw [hl] at hslot
            simp at hslot
            rw [hslot]
      rw [this]
      simp [clearSlot]
    · rw [List.set_eq_of_length_le (Nat.le_of_not_lt hr)]
      rw [List.getElem?_eq_none (Nat.le_of_not_lt hr)]
      rfl
  · rw [List.getElem?_set_ne (fun hc => hii hc.symm)]
    cases hl : l[i]? with
    | none => rfl
    | some o =>
        have ho : o ≠ some s := by
          have := hnos i
          rw [List.getD_eq_getElem?_getD, hl] at this
          simpa using this
        rw [Option.map_some']
        rw [show clearSlot s o = o from if_neg ho]

/-- C6 amended: when the destination slot is empty beforehand and the source
occupies no slot of the destination (equivalently, under the graph
invariant, the destination is not among the source's outputs),
`connect_output` followed by `disconnect_from` restores the *entire* graph
state exactly — in particular the slot is back to "no source" and the
destination renders exactly as before.  (The unrestricted claim is refuted
by the counterexample below: a previously occupied slot is left empty, not
restored.) -/
theorem connect_disconnect_restores (g : Store) (s d idx : ℕ)
    (hidx : idx < (g d).numInputs)
    (hslot : (g d).inputNodes.getD idx none = none)
    (hnos : ∀ j, (g d).inputNodes.getD j none ≠ some s)
    (hout : d ∉ (g s).outputNodes) :
    (connectOutput g s d idx).2 = true ∧
    (disconnectFrom (connectOutput g s d idx).1 s d).1 = g ∧
    ∀ fuel n, process fuel (disconnectFrom (connectOutput g s d idx).1 s d).1 d n
      = process fuel g d n := by
  have hco1 : (connectOutput g s d idx).1 = connectLink g s d idx := by
    rw [connectOutput, if_pos hidx]
    simp only [hslot]
  have hco2 : (connectOutput g s d idx).2 = true := by
    rw [connectOutput, if_pos hidx]
  have hcl := connectLink_desc g s d idx
  have hmem : d ∈ (connectLink g s d idx s).outputNodes := by
    rw [hcl s]
    show d ∈ (if s = s ∧ d ∉ (g s).outputNodes then (g s).outputNodes ++ [d]
              else (g s).outputNodes)
    rw [if_pos (And.intro rfl hout)]
    exact List.mem_append_right _ (List.mem_singleton.mpr rfl)
  have hdf := (disconnectFrom_desc (connectLink g s d idx) s d hmem).2
  -- field descriptions of the intermediate and final stores
  have hclI : ∀ x, (connectLink g s d idx x).inputNodes =
      if x = d then (g x).inputNodes.set idx (some s) else (g x).inputNodes :=
    fun x => by rw [hcl x]
  have hclO : ∀ x, (connectLink g s d idx x).outputNodes =
      if x = s ∧ d ∉ (g s).outputNodes then (g x).outputNodes ++ [d]
      else (g x).outputNodes :=
    fun x => by rw [hcl x]
  have hdfI : ∀ x, ((disconnectFrom (connectLink g s d idx) s d).1 x).inputNodes =
      if x = d then (connectLink g s d idx x).inputNodes.map (clearSlot s)
      else (connectLink g s d idx x).inputNodes :=
    fun x => by rw [hdf x]
  have hdfO : ∀ x, ((disconnectFrom (connectLink g s d idx) s d).1 x).outputNodes =
      if x = s then (connectLink g s d idx x).outputNodes.erase d
      else (connectLink g s d idx x).outputNodes :=
    fun x => by rw [hdf x]
  have hrestore : (disconnectFrom (connectLink g s d idx) s d).1 = g := by
    funext x
    apply RNode.eq_of_fields
    · rw [hdf x, hcl x]
    · rw [hdf x, hcl x]
    · rw [hdfI x, hclI x]
      by_cases hxd : x = d
      · rw [if_pos hxd, if_pos hxd]
        have hslot' : (g x).inputNodes.getD idx none = none := by rw [hxd]; exact hslot
        have hnos' : ∀ j, (g x).inputNodes.getD j none ≠ some s := by
          rw [hxd]; exact hnos
        exact set_map_clear_restore _ idx s hslot' hnos'
      · rw [if_neg hxd, if_neg hxd]
    · rw [hdfO x, hclO x]
      by_cases hxs : x = s
      · rw [if_pos hxs, if_pos (And.intro hxs hout)]
        have hout' : d ∉ (g x).outputNodes := by rw [hxs]; exact hout
        exact erase_append_singleton _ _ hout'
      · rw [if_neg hxs, if_neg (fun hc => hxs hc.1)]
    · rw [hdf x, hcl x]
    · rw [hdf x, hcl x]
    · rw [hdf x, hcl x]
    · rw [hdf x, hcl x]
    · rw [hdf x, hcl x]
  rw [hco1]
  exact ⟨hco2, hrestore, fun fuel n => by rw [hrestore]⟩

theorem findSuffix_ge (reg : List (String × ℕ)) (base : String) :
    ∀ i, i ≤ findSuffix reg base i := by
  intro i
  induction i using findSuffix.induct reg base with
  | case1 i hk ih =>
      rw [findSuffix, if_pos hk]
      omega
  | case2 i hk =>
      rw [findSuffix, if_neg hk]

theorem findSuffix_free (reg : List (String × ℕ)) (base : String) :
    ∀ i, hasKey reg (sfx base (findSuffix reg base i)) = false := by
  intro i
  induction i using findSuffix.induct reg base with
  | case1 i hk ih =>
      rw [findSuffix, if_pos hk]
      exact ih
  | case2 i hk =>
      rw [findSuffix, if_neg hk]
      exact Bool.eq_false_iff.mpr hk

theorem findSuffix_min (reg : List (String × ℕ)) (base : String) :
    ∀ i j, i ≤ j → j < findSuffix reg base i → hasKey reg (sfx base j) = true := by
  intro i
  induction i using findSuffix.induct reg base with
  | case1 i hk ih =>
      intro j hij hlt
      rcases Nat.eq_or_lt_of_le hij with heq | hgt
      · rw [← heq]
        exact hk
      · rw [findSuffix, if_pos hk] at hlt
        exact ih j hgt hlt
  | case2 i hk =>
      intro j hij hlt
      rw [findSuffix, if_neg hk] at hlt
      omega

theorem hasKey_false_iff (reg : List (String × ℕ)) (k : String) :
    hasKey reg k = false ↔ k ∉ reg.map Prod.fst := by
  unfold hasKey
  rw [← Bool.not_eq_true, List.any_eq_true]
  simp only [decide_eq_true_eq]
  constructor
  · intro h hm
    obtain ⟨p, hp, hpk⟩ := List.mem_map.mp hm
    exact h ⟨p, hp, hpk⟩
  · intro h ⟨p, hp, hpk⟩
    exact h (List.mem_map.mpr ⟨p, hp, hpk⟩)

/-- The registry invariant of C8: every entry's id is an allocated heap
slot, and the stored node's name field equals its registry key. -/
def RegInv (m : RoutingMatrix) : Prop :=
  ∀ p ∈ m.registry, p.2 < m.nextId ∧ (m.store p.2).name = p.1

/-- The analogous invariant for the `AudioSystem` block registry. -/
def BlkRegInv (sys : AudioSystemState) : Prop :=
  ∀ p ∈ sys.blocks, p.2 < sys.nextId ∧ (sys.bstore p.2).name = p.1

/-- Consecutive `DelayNode.process_audio` calls threading the delay-line
state, collecting the output blocks. -/
def runDelay (st : DelayState) : List Block → Except String (DelayState × List Block)
  | [] => .ok (st, [])
  | b :: bs => do
      let (st', out) ← delayProcessAudio st b
      let (st'', outs) ← runDelay st' bs
      .ok (st'', out :: outs)

/-- Invariant of the delay line (length `D`) after the first `h.length`
samples of history have been processed with `feedback = 0`: the cursor sits
at `h.length % D`, and the line holds the last `D` entries of
`D` leading zeros followed by the history. -/
def DelayInv (D : ℕ) (h buf : Block) (pos : ℕ) : Prop :=
  buf.length = D ∧ pos = h.length % D ∧
  ∀ r, r < D → buf.getD ((h.length + r) % D) 0
    = (List.replicate D 0 ++ h).getD (h.length + r) 0

theorem int_sub_emod_self (a b : ℤ) : (a - b) % b = a % b := by
  rw [Int.sub_emod, Int.emod_self, sub_zero, Int.emod_emod_of_dvd a dvd_rfl]

/-- One iteration of the delay loop with `feedback = 0`, `mix = 1` on a
line satisfying the invariant: it emits the sample `D` steps back and
records the dry sample. -/
theorem delayStep_spec (D : ℕ) (hD : 1 ≤ D) (h buf : Block) (pos : ℕ) (x : ℚ)
    (hinv : DelayInv D h buf pos) :
    delayStep (D : ℤ) 0 1 buf pos x
      = .ok (buf.set pos x, (h.length + 1) % D,
          (List.replicate D 0 ++ h).getD h.length 0) ∧
    DelayInv D (h ++ [x]) (buf.set pos x) ((h.length + 1) % D) := by
  obtain ⟨hlen, hpos, hbuf⟩ := hinv
  have hposlt : pos < D := by
    rw [hpos]
    exact Nat.mod_lt _ (by omega)
  have hidx : (pyMod ((pos : ℤ) - (D : ℤ)) ((buf.length : ℤ))).toNat = pos := by
    rw [hlen]
    unfold pyMod
    rw [int_sub_emod_self, Int.emod_eq_of_lt (by omega) (by exact_mod_cast hposlt)]
    simp
  have hread : buf.getD pos 0 = (List.replicate D 0 ++ h).getD h.length 0 := by
    have h0 := hbuf 0 (by omega)
    rw [Nat.add_zero] at h0
    rw [hpos]
    exact h0
  constructor
  · unfold delayStep
    rw [dif_neg (by omega : ¬ buf.length = 0)]
    simp only []
    rw [if_pos (by omega : pos < buf.length)]
    rw [hidx, hread]
    have h1 : x * (1 - 1) + (List.replicate D 0 ++ h).getD h.length 0 * 1
        = (List.replicate D 0 ++ h).getD h.length 0 := by ring
    have h2 : x + (List.replicate D 0 ++ h).getD h.length 0 * 0 = x := by ring
    rw [h1, h2, hlen, hpos, Nat.mod_add_mod]
  · refine ⟨by rw [List.length_set]; exact hlen, by simp, ?_⟩
    intro r hr
    simp only [List.length_append, List.length_singleton]
    by_cases hrD : r = D - 1
    · subst hrD
      have hix : (h.length + 1 + (D - 1)) % D = pos := by
        rw [hpos]
        have : h.length + 1 + (D - 1) = h.length + D := by omega
        rw [this]
        rw [Nat.add_mod_right]
      rw [hix]
      rw [getD_set_self _ _ _ _ (by omega : pos < buf.length)]
      have hlen2 : (List.replicate D 0 ++ h).length = D + h.length := by
        simp
      rw [← List.append_assoc]
      rw [List.getD_append_right _ _ _ _ (by omega : (List.replicate D 0 ++ h).length ≤ h.length + 1 + (D - 1))]
      rw [hlen2]
      have : h.length + 1 + (D - 1) - (D + h.length) = 0 := by omega
      rw [this]
      rfl
    · have hne : (h.length + 1 + r) % D ≠ pos := by
        rw [hpos]
        intro hc
        have hmod : (h.length + (1 + r)) % D = h.length % D := by
          rw [← hc]
          congr 1
          omega
        have hdvd : D ∣ (1 + r) := by
          have := (Nat.modEq_iff_dvd' (by omega : h.length ≤ h.length + (1 + r))).mp
            (Nat.ModEq.symm hmod)
          simpa using this
        have := Nat.le_of_dvd (by omega) hdvd
        omega
      rw [getD_set_ne _ _ _ _ _ (fun hc => hne hc.symm)]
      have harr : h.length + 1 + r = h.length + (r + 1) := by omega
      rw [harr]
      rw [hbuf (r + 1) (by omega)]
      have hfin : (List.replicate D 0 ++ (h ++ [x])).getD (h.length + (r + 1)) 0
          = (List.replicate D 0 ++ h).getD (h.length + (r + 1)) 0 := by
        rw [← List.append_assoc]
        exact List.getD_append (List.replicate D 0 ++ h) [x] 0 (h.length + (r + 1))
          (by simp only [List.length_append, List.length_replicate]; omega)
      rw [hfin]

/-- The delay loop with `feedback = 0`, `mix = 1` over a whole block: it
emits the slice of (zeros ++ history ++ block) starting `D` samples back and
maintains the invariant. -/
theorem delayLoop_spec (D : ℕ) (hD : 1 ≤ D) :
    ∀ (xs h buf : Block) (pos : ℕ), DelayInv D h buf pos →
      ∃ buf', delayLoop (D : ℤ) 0 1 buf pos xs
          = .ok (buf', (h ++ xs).length % D,
              ((List.replicate D 0 ++ h ++ xs).drop h.length).take xs.length) ∧
        DelayInv D (h ++ xs) buf' ((h ++ xs).length % D) := by
  intro xs
  induction xs with
  | nil =>
      intro h buf pos hinv
      refine ⟨buf, ?_, ?_⟩
      · rw [delayLoop, hinv.2.1]
        simp
      · rw [List.append_nil, ← hinv.2.1]
        exact hinv
  | cons x xs ih =>
      intro h buf pos hinv
      obtain ⟨hstep, hinv'⟩ := delayStep_spec D hD h buf pos x hinv
      obtain ⟨buf', hloop, hinv''⟩ := ih (h ++ [x]) (buf.set pos x)
        ((h.length + 1) % D) hinv'
      refine ⟨buf', ?_, ?_⟩
      · have e1 : delayLoop (D : ℤ) 0 1 buf pos (x :: xs)
            = (delayStep (D : ℤ) 0 1 buf pos x >>= fun p =>
                delayLoop (D : ℤ) 0 1 p.1 p.2.1 xs >>= fun q =>
                  Except.ok (q.1, q.2.1, p.2.2 :: q.2.2)) := rfl
        rw [e1, hstep]
        simp only [exc_ok_bind]
        rw [hloop]
        simp only [exc_ok_bind]
        have hlen' : ((h ++ [x]) ++ xs).length = (h ++ x :: xs).length := by
          simp only [List.length_append, List.length_cons, List.length_nil]
          omega
        have hlist : (List.replicate D 0 ++ (h ++ [x]) ++ xs)
            = (List.replicate D 0 ++ h ++ (x :: xs)) := by
          simp
        have hhl : (h ++ [x]).length = h.length + 1 := by simp
        rw [hlist, hhl, hlen']
        have hlt : h.length < (List.replicate D 0 ++ h).length := by
          simp only [List.length_append, List.length_replicate]
          omega
        have hdropL : (List.replicate D 0 ++ h).drop h.length
            = (List.replicate D 0 ++ h).getD h.length 0
              :: (List.replicate D 0 ++ h).drop (h.length + 1) := by
          rw [List.drop_eq_getElem_cons hlt, List.getD_eq_getElem _ _ hlt]
        have hdrop1 : (List.replicate D 0 ++ h ++ (x :: xs)).drop h.length
            = (List.replicate D 0 ++ h).getD h.length 0
              :: ((List.replicate D 0 ++ h).drop (h.length + 1) ++ (x :: xs)) := by
          rw [List.drop_append_of_le_length (le_of_lt hlt), hdropL, List.cons_append]
        have hdrop2 : (List.replicate D 0 ++ h ++ (x :: xs)).drop (h.length + 1)
            = (List.replicate D 0 ++ h).drop (h.length + 1) ++ (x :: xs) :=
          List.drop_append_of_le_length
            (by simp only [List.length_append, List.length_replicate]; omega)
        rw [hdrop1, List.length_cons, List.take_succ_cons, ← hdrop2]
      · rw [show (h ++ [x] : Block) ++ xs = h ++ (x :: xs) by simp] at hinv''
        exact hinv''

theorem getD_replicate_zero (n i : ℕ) : (List.replicate n (0 : ℚ)).getD i 0 = 0 := by
  rw [List.getD_eq_getElem?_getD, List.getElem?_replicate]
  split <;> rfl

/-- `DelayNode.process_audio` with `feedback = 0`, `mix = 1` and a positive
delay of `D` samples: starting either from a line satisfying the invariant or
from the initial empty line, it emits the input delayed by `D` (reading
history across call boundaries) and re-establishes the invariant. -/
theorem delayProcessAudio_spec (st : DelayState) (D : ℕ) (hD : 1 ≤ D)
    (hfb : st.feedback = 0) (hmix : st.mix = 1)
    (hds : pyInt (st.delayTime * st.sampleRate) = (D : ℤ)) (h : Block)
    (hinv : DelayInv D h st.delayBuffer st.bufferPos
      ∨ (st.delayBuffer = [] ∧ h = [] ∧ st.bufferPos = 0))
    (input : Block) :
    ∃ buf', delayProcessAudio st input
        = .ok ({ st with delayBuffer := buf',
                          bufferPos := (h ++ input).length % D },
            ((List.replicate D 0 ++ h ++ input).drop h.length).take input.length)
      ∧ DelayInv D (h ++ input) buf' ((h ++ input).length % D) := by
  have e1 : delayProcessAudio st input
      = (delayLoop (pyInt (st.delayTime * st.sampleRate)) st.feedback st.mix
          (if (st.delayBuffer.length : ℤ) < pyInt (st.delayTime * st.sampleRate) then
            st.delayBuffer
              ++ List.replicate ((pyInt (st.delayTime * st.sampleRate)).toNat
                  - st.delayBuffer.length) 0
          else st.delayBuffer) st.bufferPos input >>= fun p =>
            Except.ok ({ st with delayBuffer := p.1, bufferPos := p.2.1 }, p.2.2)) := rfl
  rcases hinv with hinvA | ⟨hb, hh, hp⟩
  · have hnlt : ¬ ((st.delayBuffer.length : ℤ) < pyInt (st.delayTime * st.sampleRate)) := by
      rw [hds, hinvA.1]
      exact lt_irrefl _
    obtain ⟨buf', hloop, hinv'⟩ :=
      delayLoop_spec D hD input h st.delayBuffer st.bufferPos hinvA
    refine ⟨buf', ?_, hinv'⟩
    rw [e1, if_neg hnlt, hds, hfb, hmix, hloop]
    rfl
  · subst hh
    have hlt : ((st.delayBuffer.length : ℤ) < pyInt (st.delayTime * st.sampleRate)) := by
      rw [hds, hb]
      simp only [List.length_nil, Nat.cast_zero]
      omega
    have hpad : st.delayBuffer
        ++ List.replicate ((pyInt (st.delayTime * st.sampleRate)).toNat
            - st.delayBuffer.length) 0 = List.replicate D 0 := by
      rw [hds, hb]
      simp
    have hinv0 : DelayInv D [] (List.replicate D 0) 0 := by
      refine ⟨by simp, by simp, ?_⟩
      intro r hr
      simp only [List.length_nil, Nat.zero_add, List.append_nil]
      rw [getD_replicate_zero, getD_replicate_zero]
    obtain ⟨buf', hloop, hinv'⟩ :=
      delayLoop_spec D hD input [] (List.replicate D 0) 0 hinv0
    refine ⟨buf', ?_, hinv'⟩
    rw [e1, if_pos hlt, hpad, hds, hfb, hmix, hp, hloop]
    rfl

theorem slice_append (D : ℕ) (h b c : Block) :
    ((List.replicate D 0 ++ h ++ b).drop h.length).take b.length
      ++ ((List.replicate D 0 ++ (h ++ b) ++ c).drop (h ++ b).length).take c.length
    = ((List.replicate D 0 ++ h ++ (b ++ c)).drop h.length).take (b ++ c).length := by
  have ha1 : List.replicate (α := ℚ) D 0 ++ (h ++ b) = List.replicate D 0 ++ h ++ b :=
    (List.append_assoc _ _ _).symm
  have ha2 : List.replicate (α := ℚ) D 0 ++ h ++ (b ++ c)
      = List.replicate D 0 ++ h ++ b ++ c :=
    (List.append_assoc _ _ _).symm
  rw [ha1, ha2, List.length_append h b, List.length_append b c, List.take_add]
  have hS1 : ((List.replicate D 0 ++ h ++ b ++ c).drop h.length).take b.length
      = ((List.replicate D 0 ++ h ++ b).drop h.length).take b.length := by
    rw [List.drop_append_of_le_length
      (by simp only [List.length_append, List.length_replicate]; omega)]
    exact List.take_append_of_le_length
      (by simp only [List.length_drop, List.length_append, List.length_replicate]; omega)
  have hS2 : ((List.replicate D 0 ++ h ++ b ++ c).drop h.length).drop b.length
      = (List.replicate D 0 ++ h ++ b ++ c).drop (h.length + b.length) := by
    rw [List.drop_drop, Nat.add_comm]
  rw [hS1, hS2]

/-- Consecutive `DelayNode.process_audio` calls with `feedback = 0`,
`mix = 1`: the concatenated output is the concatenated input delayed by the
(positive) `D`-sample delay, zero-padded at the start. -/
theorem runDelay_spec (D : ℕ) (hD : 1 ≤ D) :
    ∀ (bs : List Block) (st : DelayState) (h : Block),
      st.feedback = 0 → st.mix = 1 →
      pyInt (st.delayTime * st.sampleRate) = (D : ℤ) →
      (DelayInv D h st.delayBuffer st.bufferPos
        ∨ (st.delayBuffer = [] ∧ h = [] ∧ st.bufferPos = 0)) →
      ∃ st' outs, runDelay st bs = .ok (st', outs) ∧
        outs.flatten
          = ((List.replicate D 0 ++ h ++ bs.flatten).drop h.length).take
              bs.flatten.length := by
  intro bs
  induction bs with
  | nil =>
      intro st h hfb hmix hds hinv
      refine ⟨st, [], rfl, ?_⟩
      simp
  | cons b bs ih =>
      intro st h hfb hmix hds hinv
      obtain ⟨buf', hpa, hinv'⟩ := delayProcessAudio_spec st D hD hfb hmix hds h hinv b
      obtain ⟨st', outs, hrun, hflat⟩ := ih
        { st with delayBuffer := buf', bufferPos := (h ++ b).length % D }
        (h ++ b) hfb hmix hds (Or.inl hinv')
      refine ⟨st', (((List.replicate D 0 ++ h ++ b).drop h.length).take b.length)
        :: outs, ?_, ?_⟩
      · have e1 : runDelay st (b :: bs)
            = (delayProcessAudio st b >>= fun p =>
                runDelay p.1 bs >>= fun q => Except.ok (q.1, p.2 :: q.2)) := rfl
        rw [e1, hpa]
        simp only [exc_ok_bind]
        rw [hrun]
        rfl
      · rw [List.flatten_cons, hflat, List.flatten_cons]
        exact slice_append D h b bs.flatten

/-- Test fixture: a component node producing constant 1-samples connected
into slot 0 of a one-input node, plus a spare silent source node (id 2). -/
def pianoFixture : Store := fun i =>
  if i = 0 then
    { mkComponentNode "Piano" (fun k => List.replicate k.toNat 1) with
        outputNodes := [1] }
  else if i = 1 then { mkAudioNode "FX" 1 with inputNodes := [some 0] }
  else mkAudioNode "Other" 0

/-- The fixture after connecting the spare source into the occupied slot
and then disconnecting it again. -/
def pianoFixtureAfter : Store :=
  (disconnectFrom (connectOutput pianoFixture 2 1 0).1 2 1).1

/-! ## Claims -/

/-- C2: For every node with `muted` set and every positive frame count `n`,
the render call returns an all-zero block of exactly `n` samples, for any
input graph, effect state and gain: `AudioNode.process`,
`AudioBlock.process` and `AudioBus.process_audio` all early-return
`np.zeros(n)` when muted, regardless of the rest of the state. -/
theorem muted_renders_silence (n : ℤ) (hn : 0 < n)
    (gR : Store) (idR fuelR : ℕ) (hR : (gR idR).muted = true)
    (gB : BStore) (idB fuelB : ℕ) (hB : (gB idB).muted = true)
    (bus : ABus) (hBus : bus.muted = true) :
    process fuelR gR idR n = .ok (gR, List.replicate n.toNat 0) ∧
    blkProcess fuelB gB idB n = .ok (gB, List.replicate n.toNat 0) ∧
    bus.processAudio n = .ok (bus, List.replicate n.toNat 0) := by
  refine ⟨?_, ?_, ?_⟩
  · rw [process.eq_def]
    simp only [hR, or_true, if_true, zerosE_nonneg n (le_of_lt hn)]
    rfl
  · have hle : ¬ n ≤ 0 := not_le.mpr hn
    have hbody : blkProcessBody fuelB gB idB n =
        .ok (gB, List.replicate n.toNat 0) := by
      rw [blkProcessBody]
      rw [if_neg hle, if_pos hB, zerosE_nonneg n (le_of_lt hn)]
      rfl
    rw [blkProcess, hbody]
  · obtain ⟨name, vol, m, tracks, inputs, effects, buffer⟩ := bus
    have hm : m = true := hBus
    rw [ABus.processAudio]
    rw [if_pos hm, zerosE_nonneg n (le_of_lt hn)]
    rfl

/-- Witness for C2 at a concrete muted node/block/bus and `n = 4`. -/
theorem muted_renders_silence_witness :
    process 3 (fun _ => { mkAudioNode "A" 1 with muted := true }) 0 4 =
      .ok (fun _ => { mkAudioNode "A" 1 with muted := true }, List.replicate 4 0) ∧
    blkProcess 3 (fun _ => { mkAudioBlock "B" with muted := true }) 0 4 =
      .ok (fun _ => { mkAudioBlock "B" with muted := true }, List.replicate 4 0) ∧
    (ABus.mk "Bus" 1 true [] [] [] []).processAudio 4 =
      .ok (ABus.mk "Bus" 1 true [] [] [] [], List.replicate 4 0) :=
  muted_renders_silence 4 (by decide)
    (fun _ => { mkAudioNode "A" 1 with muted := true }) 0 3 rfl
    (fun _ => { mkAudioBlock "B" with muted := true }) 0 3 rfl
    (ABus.mk "Bus" 1 true [] [] [] []) rfl

/-- C1 counterexample: the render path *can* raise.  A `DelayNode` whose
`delay_time` parameter has been set to `0` (reachable through
`EffectNode.set_parameter`, e.g. from the parameter slider) keeps a
zero-length delay line, and `process` on it raises `ZeroDivisionError`
(`% 0` in the per-sample loop) instead of resolving to a numeric
fallback — the claimed exception-freedom fails at this reachable state. -/
theorem render_never_raises_counterexample :
    process 1 (fun _ => setParameter (mkDelayNode "Delay") "delay_time" 0) 0 4 =
      .error "ZeroDivisionError: integer modulo by zero" := by
  norm_num [process, setParameter, mkDelayNode, mkAudioNode, getInputAudioP, baseFold,
    generateAudio, zerosE, processAudioAt, delayProcessAudio, delayLoop, delayStep,
    setN, pyInt, pyMod, npAddInPlace]

/-- C1 amended: for `AudioBlock.process` (audio_system.py) the propagation
policy holds exactly on nonnegative sizes — for every block, heap, stack
depth and requested size `n ≥ 0`, `process` returns a block (never an
error): its `try/except` resolves every failure of the body to the silence
fallback.  For `n < 0` even the handler raises: its own
`np.zeros(buffer_size)` fails with `ValueError: negative dimensions are not
allowed`, which propagates out of `process`.  (The audio_routing render
path is exempted by the counterexample: an empty delay line raises.) -/
theorem audio_block_process_total (fuel : ℕ) (g : BStore) (id : ℕ) (n : ℤ) :
    (0 ≤ n → ∃ g' out, blkProcess fuel g id n = .ok (g', out)) ∧
    (n < 0 → blkProcess fuel g id n
        = .error "ValueError: negative dimensions are not allowed") := by
  constructor
  · intro hn
    rw [blkProcess]
    cases hb : blkProcessBody fuel g id n with
    | ok r => exact ⟨r.1, r.2, rfl⟩
    | error e =>
        refine ⟨g, List.replicate n.toNat 0, ?_⟩
        rw [zerosE_nonneg n hn]
        rfl
  · intro hn
    have hbody : blkProcessBody fuel g id n
        = .error "BufferSizeError: Invalid buffer size" := by
      rw [blkProcessBody, if_pos (le_of_lt hn)]
    have hz : zerosE n = .error "ValueError: negative dimensions are not allowed" := by
      unfold zerosE
      rw [if_pos hn]
    rw [blkProcess, hbody]
    show (zerosE n).map (fun z => (g, z)) = _
    rw [hz]
    rfl

/-- Witness for the amended C1 at a concrete block heap: size 4 yields a
block, size -1 escapes as the handler's own `ValueError`. -/
theorem audio_block_process_total_witness :
    ((0 : ℤ) ≤ 4 ∧
      ∃ g' out, blkProcess 2 (fun _ => mkAudioBlock "M") 0 4 = .ok (g', out)) ∧
    ((-1 : ℤ) < 0 ∧
      blkProcess 2 (fun _ => mkAudioBlock "M") 0 (-1)
        = .error "ValueError: negative dimensions are not allowed") :=
  ⟨⟨by decide,
    (audio_block_process_total 2 (fun _ => mkAudioBlock "M") 0 4).1 (by decide)⟩,
   ⟨by decide,
    (audio_block_process_total 2 (fun _ => mkAudioBlock "M") 0 (-1)).2 (by decide)⟩⟩

/-- C3 counterexample: a muted render does *not* write the returned block
into `self.buffer`: the muted early return leaves the stale 1024-sample
buffer in place while returning a fresh 4-sample zero block. -/
theorem muted_process_skips_buffer_write_counterexample :
    process 1 (fun _ => { mkAudioNode "A" 1 with muted := true }) 0 4 =
      .ok (fun _ => { mkAudioNode "A" 1 with muted := true }, List.replicate 4 0) ∧
    ((fun _ => { mkAudioNode "A" 1 with muted := true } : Store) 0).buffer ≠
      List.replicate 4 0 := by
  constructor
  · rfl
  · show List.replicate 1024 (0 : ℚ) ≠ List.replicate 4 0
    intro h
    have hl := congrArg List.length h
    simp only [List.length_replicate] at hl
    omega

/-- C3 amended: on the non-muted, enabled path, every successful
`AudioNode.process` call writes the block it returns into the node's
`buffer` before returning; the muted/disabled early return instead returns
a zero block without touching the heap at all. -/
theorem process_else_buffer_write
    (pr : Store → ℕ → ℤ → Except String (Store × Block))
    (g : Store) (id : ℕ) (n : ℤ) (g' : Store) (out : Block)
    (h : (getInputAudioP pr g id n >>= fun p =>
        processAudioAt p.1 id p.2 >>= fun q =>
        Except.ok (setN q.1 id { q.1 id with buffer := q.2.map (· * (q.1 id).gain) },
          q.2.map (· * (q.1 id).gain))) = Except.ok (g', out)) :
    (g' id).buffer = out := by
  rcases hga : getInputAudioP pr g id n with e | p
  · rw [hga, exc_error_bind] at h
    exact Except.noConfusion h
  · rw [hga, exc_ok_bind] at h
    rcases hpa : processAudioAt p.1 id p.2 with e | q
    · rw [hpa, exc_error_bind] at h
      exact Except.noConfusion h
    · rw [hpa, exc_ok_bind] at h
      simp only [Except.ok.injEq, Prod.mk.injEq] at h
      obtain ⟨hg', hout⟩ := h
      rw [← hg', ← hout]
      simp [setN]

theorem buffer_write_on_success (fuel : ℕ) (g : Store) (id : ℕ) (n : ℤ) :
    ((g id).enabled = true → (g id).muted = false →
      ∀ g' out, process fuel g id n = .ok (g', out) → (g' id).buffer = out) ∧
    ((g id).enabled = false ∨ (g id).muted = true →
      process fuel g id n = (zerosE n).map fun z => (g, z)) := by
  constructor
  · intro hen hmut g' out h
    simp only [process.eq_def] at h
    rw [if_neg (by simp [hen, hmut])] at h
    exact process_else_buffer_write _ g id n g' out h
  · intro h
    simp only [process.eq_def]
    rcases h with he | hm
    · rw [if_pos (Or.inl he)]
    · rw [if_pos (Or.inr hm)]

/-- Witness for the amended C3: a component node rendering ones writes
`[1,1,1,1]` into its buffer; a muted node's render leaves the heap alone. -/
theorem buffer_write_on_success_witness :
    ((fun _ => mkComponentNode "Src" fun k => List.replicate k.toNat 1 : Store) 0).enabled = true ∧
    ((fun _ => mkComponentNode "Src" fun k => List.replicate k.toNat 1 : Store) 0).muted = false ∧
    (((fun _ => { mkAudioNode "A" 1 with muted := true } : Store) 0).enabled = false ∨
      ((fun _ => { mkAudioNode "A" 1 with muted := true } : Store) 0).muted = true) ∧
    process 1 (fun _ => { mkAudioNode "A" 1 with muted := true }) 0 4 =
      (zerosE 4).map fun z => ((fun _ => { mkAudioNode "A" 1 with muted := true } : Store), z) :=
  ⟨rfl, rfl, Or.inr rfl,
    (buffer_write_on_success 1 (fun _ => { mkAudioNode "A" 1 with muted := true }) 0 4).2
      (Or.inr rfl)⟩

/-- C5: the connection-state invariant — at most one source per slot
(structural in the slot representation), bidirectionally consistent slot
back-references and output sets, duplicate-free output sets, fixed arity —
is preserved by `connect_output`, `disconnect_from` and `disconnect_all`;
and connecting to an occupied slot first disconnects the previous occupant
(when the occupant differs from the new source, the destination no longer
appears anywhere in its connections). -/
theorem connection_invariant_preserved (g : Store) (hinv : GraphInv g)
    (s d idx x p : ℕ) :
    GraphInv (connectOutput g s d idx).1 ∧
    GraphInv (disconnectFrom g s d).1 ∧
    GraphInv (disconnectAll g x) ∧
    (idx < (g d).numInputs → (g d).inputNodes.getD idx none = some p → p ≠ s →
      ¬ HasSlot (connectOutput g s d idx).1 d p ∧
      d ∉ ((connectOutput g s d idx).1 p).outputNodes) := by
  refine ⟨connectOutput_preserves_inv g s d idx hinv,
    disconnectFrom_preserves_inv g s d hinv,
    disconnectAll_preserves_inv g x hinv, ?_⟩
  intro hidx hprev hps
  have hpout : d ∈ (g p).outputNodes := (hinv.2.2 p d).1 ⟨idx, hprev⟩
  constructor
  · rintro ⟨j, hj⟩
    rw [connectOutput_slots g s d idx p hidx hprev hpout] at hj
    have hrange : idx < ((g d).inputNodes.map (clearSlot p)).length := by
      rw [List.length_map, hinv.2.1 d]
      exact hidx
    by_cases hji : j = idx
    · subst hji
      rw [getD_set_self _ _ _ _ hrange] at hj
      injection hj with hj
      exact hps hj.symm
    · rw [getD_set_ne _ _ _ _ _ (fun hc => hji hc.symm)] at hj
      rw [getD_map_clear] at hj
      exact clearSlot_ne p _ hj
  · rw [connectOutput_outputs_evicted g s d idx p hidx hprev hpout hps]
    exact (hinv.1 p).not_mem_erase

/-- Witness for C5 on a two-node heap of fresh one-input nodes. -/
theorem connection_invariant_preserved_witness :
    GraphInv (connectOutput (fun _ => mkAudioNode "A" 1) 0 1 0).1 ∧
    GraphInv (disconnectFrom (fun _ => mkAudioNode "A" 1) 0 1).1 ∧
    GraphInv (disconnectAll (fun _ => mkAudioNode "A" 1) 0) := by
  have hinv : GraphInv (fun _ => mkAudioNode "A" 1) := by
    refine ⟨fun a => List.nodup_nil, fun a => rfl, fun a b => ?_⟩
    constructor
    · rintro ⟨i, hi⟩
      rcases i with _ | i
      · exact Option.noConfusion hi
      · exact Option.noConfusion hi
    · intro hm
      exact absurd hm (List.not_mem_nil b)
  exact ⟨(connection_invariant_preserved _ hinv 0 1 0 0 0).1,
    (connection_invariant_preserved _ hinv 0 1 0 0 0).2.1,
    (connection_invariant_preserved _ hinv 0 1 0 0 0).2.2.1⟩

/-- Witness for C10: a source occupying both slots of a destination is
cleared from both by one `disconnect_from`. -/
theorem disconnect_clears_every_slot_witness :
    (∀ i, ((disconnectFrom
        (fun i => if i = 0 then { mkAudioNode "Src" 0 with outputNodes := [1] }
                  else { mkAudioNode "Mix" 2 with inputNodes := [some 0, some 0] })
        0 1).1 1).inputNodes.getD i none ≠ some 0) ∧
    (∀ j, ((connectOutput
        (fun i => if i = 0 then { mkAudioNode "Src" 0 with outputNodes := [1] }
                  else { mkAudioNode "Mix" 2 with inputNodes := [some 0, some 0] })
        0 1 0).1 1).inputNodes.getD j none = some 0 → j = 0 ∧ (0 : ℕ) = 0) :=
  disconnect_clears_every_slot
    (fun i => if i = 0 then { mkAudioNode "Src" 0 with outputNodes := [1] }
              else { mkAudioNode "Mix" 2 with inputNodes := [some 0, some 0] })
    0 1 0 0 (List.mem_singleton.mpr rfl) (by decide) rfl
    (List.mem_singleton.mpr rfl)

/-- C6 counterexample: connect-then-disconnect is *not* an inverse for every
pair of nodes and valid slot: when the slot was already occupied (here by a
component producing 1-samples), the occupant is evicted and not restored,
so the destination renders silence afterwards instead of rendering as it
did before the connection (the slot does end at "no source", but that is
not the pre-connection state). -/
theorem connect_disconnect_not_inverse_counterexample :
    Except.map Prod.snd (process 2 pianoFixture 1 4) = .ok [1, 1, 1, 1] ∧
    (pianoFixtureAfter 1).inputNodes = [none] ∧
    Except.map Prod.snd (process 2 pianoFixtureAfter 1 4) = .ok [0, 0, 0, 0] ∧
    ([1, 1, 1, 1] : Block) ≠ [0, 0, 0, 0] := by
  refine ⟨?_, ?_, ?_, by simp⟩
  · norm_num [process, pianoFixture, mkComponentNode, mkAudioNode, getInputAudioP,
      baseFold, generateAudio, zerosE, processAudioAt, setN, npAddInPlace,
      List.zipWith]
  · norm_num [pianoFixtureAfter, pianoFixture, connectOutput, connectLink,
      disconnectFrom, setN, clearSlot, mkComponentNode, mkAudioNode]
  · norm_num [process, pianoFixtureAfter, pianoFixture, connectOutput, connectLink,
      disconnectFrom, setN, clearSlot, mkComponentNode, mkAudioNode, getInputAudioP,
      baseFold, generateAudio, zerosE, processAudioAt, npAddInPlace, List.zipWith]
    rfl

/-- Witness for the amended C6 on a heap of fresh nodes: connecting node 0
into the empty slot 0 of node 1 and disconnecting it restores the heap. -/
theorem connect_disconnect_restores_witness :
    (connectOutput (fun _ => mkAudioNode "A" 1) 0 1 0).2 = true ∧
    (disconnectFrom (connectOutput (fun _ => mkAudioNode "A" 1) 0 1 0).1 0 1).1 =
      (fun _ => mkAudioNode "A" 1) := by
  have h := connect_disconnect_restores (fun _ => mkAudioNode "A" 1) 0 1 0
    (by decide) rfl
    (by
      intro j
      rcases j with _ | j
      · exact fun hc => Option.noConfusion hc
      · exact fun hc => Option.noConfusion hc)
    (List.not_mem_nil 1)
  exact ⟨h.1, h.2.1⟩

/-- The name chosen by the deduplication loop is never an existing key. -/
theorem chooseKey_free (reg : List (String × ℕ)) (base : String) :
    hasKey reg (chooseKey reg base) = false := by
  unfold chooseKey
  split
  · exact findSuffix_free reg base 1
  · rename_i h
    exact Bool.eq_false_iff.mpr h

/-- C8: after `add_node` / `add_block`, registry names stay unique keys: a
node whose name is free keeps it; a colliding name is renamed to
`name_i` with the *smallest* `i ≥ 1` whose suffixed name is not yet a key;
the chosen key is never an existing key, so key uniqueness is preserved;
and every stored node/block's name field equals its registry key. -/
theorem add_node_dedup (m : RoutingMatrix) (nd : RNode)
    (sys : AudioSystemState) (blk : ABlock) (nameOpt : Option String) :
    (hasKey m.registry nd.name = false → chooseKey m.registry nd.name = nd.name) ∧
    (hasKey m.registry nd.name = true →
      chooseKey m.registry nd.name
        = sfx nd.name (findSuffix m.registry nd.name 1) ∧
      1 ≤ findSuffix m.registry nd.name 1 ∧
      hasKey m.registry (sfx nd.name (findSuffix m.registry nd.name 1)) = false ∧
      ∀ j, 1 ≤ j → j < findSuffix m.registry nd.name 1 →
        hasKey m.registry (sfx nd.name j) = true) ∧
    hasKey m.registry (chooseKey m.registry nd.name) = false ∧
    ((m.registry.map Prod.fst).Nodup →
      ((addNode m nd).1.registry.map Prod.fst).Nodup) ∧
    (RegInv m → RegInv (addNode m nd).1) ∧
    hasKey sys.blocks (chooseKey sys.blocks (nameOpt.getD blk.name)) = false ∧
    ((sys.blocks.map Prod.fst).Nodup →
      ((addBlock sys blk nameOpt).1.blocks.map Prod.fst).Nodup) ∧
    (BlkRegInv sys → BlkRegInv (addBlock sys blk nameOpt).1) := by
  refine ⟨?_, ?_, chooseKey_free m.registry nd.name, ?_, ?_,
    chooseKey_free sys.blocks (nameOpt.getD blk.name), ?_, ?_⟩
  · intro h
    unfold chooseKey
    rw [h]
    rfl
  · intro h
    refine ⟨by unfold chooseKey; rw [h]; rfl, findSuffix_ge _ _ 1,
      findSuffix_free _ _ 1, findSuffix_min _ _ 1⟩
  · intro hnd
    rw [addNode]
    simp only [List.map_append, List.map_cons, List.map_nil]
    rw [List.nodup_append]
    refine ⟨hnd, List.nodup_singleton _, ?_⟩
    intro k hk hk2
    simp only [List.mem_singleton] at hk2
    subst hk2
    exact (hasKey_false_iff _ _).mp (chooseKey_free m.registry nd.name) hk
  · intro hreg
    intro p hp
    rw [addNode] at hp
    simp only [List.mem_append, List.mem_singleton] at hp
    rcases hp with hp | hp
    · obtain ⟨h1, h2⟩ := hreg p hp
      refine ⟨show p.2 < m.nextId + 1 by omega, ?_⟩
      show (setN m.store m.nextId
        { nd with name := chooseKey m.registry nd.name } p.2).name = p.1
      rw [setN_other _ _ _ _ (show p.2 ≠ m.nextId by omega)]
      exact h2
    · subst hp
      refine ⟨show m.nextId < m.nextId + 1 by omega, ?_⟩
      show (setN m.store m.nextId
        { nd with name := chooseKey m.registry nd.name } m.nextId).name
        = chooseKey m.registry nd.name
      rw [setN_self]
  · intro hnd
    rw [addBlock]
    simp only [List.map_append, List.map_cons, List.map_nil]
    rw [List.nodup_append]
    refine ⟨hnd, List.nodup_singleton _, ?_⟩
    intro k hk hk2
    simp only [List.mem_singleton] at hk2
    subst hk2
    exact (hasKey_false_iff _ _).mp
      (chooseKey_free sys.blocks (nameOpt.getD blk.name)) hk
  · intro hreg
    intro p hp
    rw [addBlock] at hp
    simp only [List.mem_append, List.mem_singleton] at hp
    rcases hp with hp | hp
    · obtain ⟨h1, h2⟩ := hreg p hp
      refine ⟨show p.2 < sys.nextId + 1 by omega, ?_⟩
      show (setB sys.bstore sys.nextId
        { blk with name := chooseKey sys.blocks (nameOpt.getD blk.name)
                   sampleRate := sys.sampleRate } p.2).name = p.1
      rw [show (setB sys.bstore sys.nextId
          { blk with name := chooseKey sys.blocks (nameOpt.getD blk.name)
                     sampleRate := sys.sampleRate } p.2)
          = sys.bstore p.2 from if_neg (show p.2 ≠ sys.nextId by omega)]
      exact h2
    · subst hp
      refine ⟨show sys.nextId < sys.nextId + 1 by omega, ?_⟩
      show (setB sys.bstore sys.nextId
        { blk with name := chooseKey sys.blocks (nameOpt.getD blk.name)
                   sampleRate := sys.sampleRate } sys.nextId).name
        = chooseKey sys.blocks (nameOpt.getD blk.name)
      rw [show (setB sys.bstore sys.nextId
          { blk with name := chooseKey sys.blocks (nameOpt.getD blk.name)
                     sampleRate := sys.sampleRate } sys.nextId)
          = { blk with name := chooseKey sys.blocks (nameOpt.getD blk.name)
                       sampleRate := sys.sampleRate } from if_pos rfl]

/-- C7: `RoutingMatrix.connect_nodes`, `disconnect_nodes` and `remove_node`
called with a source/destination/target name that is not a registry key
return `False` and leave the matrix (registry and every node's connections)
unchanged: failure is reported synchronously as a boolean, never thrown. -/
theorem unknown_name_is_noop (m : RoutingMatrix) (srcName destName nm : String)
    (idx : ℕ)
    (hconn : qlookup m.registry srcName = none ∨ qlookup m.registry destName = none)
    (hnm : qlookup m.registry nm = none) :
    connectNodes m srcName destName idx = (m, false) ∧
    disconnectNodes m srcName destName = (m, false) ∧
    removeNode m nm = (m, false) := by
  refine ⟨?_, ?_, ?_⟩
  · rw [connectNodes]
    rcases hconn with h | h
    · rw [h]
    · rw [h]; cases qlookup m.registry srcName <;> rfl
  · rw [disconnectNodes]
    rcases hconn with h | h
    · rw [h]
    · rw [h]; cases qlookup m.registry srcName <;> rfl
  · rw [removeNode, hnm]

/-- Witness for C7 on a matrix whose registry contains only "Master". -/
theorem unknown_name_is_noop_witness :
    connectNodes
      { registry := [("Master", 0)], store := fun _ => mkAudioNode "Master" 1
        nextId := 1, sampleRate := 44100, bufferSize := 1024, masterNode := none }
      "Piano" "Master" 0 =
      ({ registry := [("Master", 0)], store := fun _ => mkAudioNode "Master" 1
         nextId := 1, sampleRate := 44100, bufferSize := 1024, masterNode := none }, false) ∧
    disconnectNodes
      { registry := [("Master", 0)], store := fun _ => mkAudioNode "Master" 1
        nextId := 1, sampleRate := 44100, bufferSize := 1024, masterNode := none }
      "Piano" "Master" =
      ({ registry := [("Master", 0)], store := fun _ => mkAudioNode "Master" 1
         nextId := 1, sampleRate := 44100, bufferSize := 1024, masterNode := none }, false) ∧
    removeNode
      { registry := [("Master", 0)], store := fun _ => mkAudioNode "Master" 1
        nextId := 1, sampleRate := 44100, bufferSize := 1024, masterNode := none }
      "Piano" =
      ({ registry := [("Master", 0)], store := fun _ => mkAudioNode "Master" 1
         nextId := 1, sampleRate := 44100, bufferSize := 1024, masterNode := none }, false) :=
  unknown_name_is_noop _ "Piano" "Master" "Piano" 0 (Or.inl (by decide)) (by decide)

/-- C9: each realtime callback invocation delivers exactly `frame_count`
samples: the master block's output is zero-padded when short and truncated
when long, and "no master block" yields `frame_count` zeros rather than an
error. -/
theorem callback_delivers_exact_frames (g : BStore) (master : Option ℕ)
    (frameCount fuel : ℕ) :
    (audioCallback g master frameCount fuel).length = frameCount ∧
    (master = none → audioCallback g master frameCount fuel = List.replicate frameCount 0) ∧
    (∀ id g' out, master = some id →
      blkProcess fuel g id (frameCount : ℤ) = .ok (g', out) →
      audioCallback g master frameCount fuel =
        if out.length < frameCount then out ++ List.replicate (frameCount - out.length) 0
        else out.take frameCount) := by
  refine ⟨?_, ?_, ?_⟩
  · cases master with
    | none =>
      show (List.replicate frameCount (0 : ℚ)).length = frameCount
      simp
    | some id =>
      show (match blkProcess fuel g id (frameCount : ℤ) with
            | .ok r =>
                if r.2.length < frameCount then
                  r.2 ++ List.replicate (frameCount - r.2.length) 0
                else r.2.take frameCount
            | .error _ => List.replicate frameCount (0 : ℚ)).length = frameCount
      split
      · split
        · simp only [List.length_append, List.length_replicate]
          omega
        · rename_i hge
          simp only [List.length_take]
          omega
      · simp
  · intro h
    rw [h]
    rfl
  · intro id g' out hm hp
    subst hm
    rw [audioCallback.eq_def]
    simp only [hp]

/-- Witness for C9: no master delivers 8 zeros; a master block delivering a
short buffer is zero-padded to the requested frame count. -/
theorem callback_delivers_exact_frames_witness :
    (audioCallback (fun _ => mkAudioBlock "M") none 8 3).length = 8 ∧
    audioCallback (fun _ => mkAudioBlock "M") none 8 3 = List.replicate 8 0 :=
  ⟨(callback_delivers_exact_frames (fun _ => mkAudioBlock "M") none 8 3).1,
   (callback_delivers_exact_frames (fun _ => mkAudioBlock "M") none 8 3).2.1 rfl⟩

/-- The spec's `round(d*sampleRate)`: rounding to the nearest integer
(half up), as the claim's wording prescribes — for comparison with the
code's truncating `int(...)`. -/
def roundNearest (q : ℚ) : ℤ := ⌊q + 1/2⌋

/-- Initial delay state with `feedback = 0`, `mix = 1`, `delay_time = 1/5`
at a 10 Hz sample rate: a 2-sample delay. -/
def delayFixture : DelayState :=
  { delayTime := 1/5, feedback := 0, mix := 1,
    delayBuffer := [], bufferPos := 0, sampleRate := 10 }

/-- C4 counterexample: the shift is `int(d*sample_rate)` (truncation), not
`round(d*sample_rate)`.  With `d = 4/25` and `sample_rate = 10`,
`d*sample_rate = 1.6`, so the claim's `round` predicts a 2-sample shift and
hence output `0` at index 1; the code truncates to a 1-sample delay line and
actually emits the first dry sample (`5`) at index 1. -/
theorem delay_round_shift_counterexample :
    Except.map Prod.snd (delayProcessAudio
        { delayTime := 4/25, feedback := 0, mix := 1,
          delayBuffer := [], bufferPos := 0, sampleRate := 10 } [5, 7])
      = .ok [0, 5] ∧
    roundNearest ((4/25 : ℚ) * 10) = 2 ∧
    List.getD [(0 : ℚ), 5] 1 0 ≠ 0 := by
  refine ⟨?_, ?_, by norm_num⟩
  · norm_num [delayProcessAudio, delayLoop, delayStep, pyInt, pyMod, Int.tdiv]
  · norm_num [roundNearest, Int.floor_eq_iff]

/-- C4 (amended): for the delay effect with `feedback = 0`, `mix = 1` and
delay time `d`, processed from the initial zeroed state over consecutive
`process_audio` calls, the output sample at global index `i` equals the dry
input sample at index `i - D` where `D = int(d*sample_rate)` (truncation
toward zero, not `round`), and equals `0` when `i < D` — provided `D ≥ 1`
(for `D = 0` the cursor arithmetic `% len(delay_buffer)` raises
`ZeroDivisionError` instead, cf. C1). -/
theorem delay_exact_shift (st : DelayState) (D : ℕ) (hD : 1 ≤ D)
    (hfb : st.feedback = 0) (hmix : st.mix = 1)
    (hds : pyInt (st.delayTime * st.sampleRate) = (D : ℤ))
    (hbuf : st.delayBuffer = []) (hpos : st.bufferPos = 0)
    (bs : List Block) :
    ∃ st' outs, runDelay st bs = .ok (st', outs) ∧
      outs.flatten.length = bs.flatten.length ∧
      ∀ i, i < bs.flatten.length →
        outs.flatten.getD i 0
          = if i < D then 0 else bs.flatten.getD (i - D) 0 := by
  obtain ⟨st', outs, hrun, hflat⟩ :=
    runDelay_spec D hD bs st [] hfb hmix hds (Or.inr ⟨hbuf, rfl, hpos⟩)
  have hsimp : outs.flatten
      = (List.replicate D 0 ++ bs.flatten).take bs.flatten.length := by
    rw [hflat]
    simp
  refine ⟨st', outs, hrun, ?_, ?_⟩
  · rw [hsimp, List.length_take]
    simp only [List.length_append, List.length_replicate]
    omega
  · intro i hi
    rw [hsimp, List.getD_eq_getElem?_getD, List.getElem?_take_of_lt hi,
      ← List.getD_eq_getElem?_getD]
    by_cases hiD : i < D
    · rw [if_pos hiD,
        List.getD_append _ _ _ _ (by simp only [List.length_replicate]; omega)]
      exact getD_replicate_zero D i
    · rw [if_neg hiD,
        List.getD_append_right _ _ _ _ (by simp only [List.length_replicate]; omega),
        List.length_replicate]

/-- Witness for C4: delay time `1/5` at rate 10 is a 2-sample shift on the
block `[1, 2, 3]`. -/
theorem delay_exact_shift_witness :
    (1 ≤ 2 ∧ delayFixture.feedback = 0 ∧ delayFixture.mix = 1 ∧
      pyInt (delayFixture.delayTime * delayFixture.sampleRate) = ((2 : ℕ) : ℤ) ∧
      delayFixture.delayBuffer = [] ∧ delayFixture.bufferPos = 0) ∧
    (∃ st' outs, runDelay delayFixture [[1, 2, 3]] = .ok (st', outs) ∧
      outs.flatten.length = ([[1, 2, 3]] : List Block).flatten.length ∧
      ∀ i, i < ([[1, 2, 3]] : List Block).flatten.length →
        outs.flatten.getD i 0
          = if i < 2 then 0 else ([[1, 2, 3]] : List Block).flatten.getD (i - 2) 0) :=
  ⟨⟨by norm_num, rfl, rfl, by norm_num [delayFixture, pyInt, Int.tdiv], rfl, rfl⟩,
   delay_exact_shift delayFixture 2 (by norm_num) rfl rfl
     (by norm_num [delayFixture, pyInt, Int.tdiv]) rfl rfl [[1, 2, 3]]⟩

/-- A one-entry routing matrix whose single node is registered under the
key `"Reverb"`. -/
def regFixture : RoutingMatrix :=
  { registry := [("Reverb", 0)], store := fun _ => mkAudioNode "Reverb" 1,
    nextId := 1, sampleRate := 44100, bufferSize := 1024, masterNode := none }

/-- An `AudioSystem` with an empty block registry. -/
def sysFixture : AudioSystemState :=
  { blocks := [], bstore := fun _ => mkAudioBlock "B",
    nextId := 0, sampleRate := 44100, masterBlock := none }

/-- Witness for C8: adding a second node named `"Reverb"` renames it with a
suffix, the chosen key is fresh, uniqueness and the registry invariant are
preserved, and adding a block to an empty system keeps its invariant. -/
theorem add_node_dedup_witness :
    hasKey regFixture.registry (mkAudioNode "Reverb" 1).name = true ∧
    chooseKey regFixture.registry (mkAudioNode "Reverb" 1).name
      = sfx (mkAudioNode "Reverb" 1).name
          (findSuffix regFixture.registry (mkAudioNode "Reverb" 1).name 1) ∧
    hasKey regFixture.registry
      (chooseKey regFixture.registry (mkAudioNode "Reverb" 1).name) = false ∧
    (regFixture.registry.map Prod.fst).Nodup ∧
    ((addNode regFixture (mkAudioNode "Reverb" 1)).1.registry.map Prod.fst).Nodup ∧
    RegInv (addNode regFixture (mkAudioNode "Reverb" 1)).1 ∧
    BlkRegInv (addBlock sysFixture (mkAudioBlock "B") none).1 := by
  have T := add_node_dedup regFixture (mkAudioNode "Reverb" 1) sysFixture
    (mkAudioBlock "B") none
  refine ⟨by decide, (T.2.1 (by decide)).1, T.2.2.1, by decide,
    T.2.2.2.1 (by decide), T.2.2.2.2.1 ?_, T.2.2.2.2.2.2.2 ?_⟩
  · intro p hp
    have hp' : p = ("Reverb", 0) := by
      have hmem : p ∈ [("Reverb", (0 : ℕ))] := hp
      rwa [List.mem_singleton] at hmem
    subst hp'
    exact ⟨by decide, rfl⟩
  · intro p hp
    exact absurd (show p ∈ ([] : List (String × ℕ)) from hp) (List.not_mem_nil p)

end MusicPlatform
